import Mathlib

/-!
Verification of the Private-AI-companion app's background extraction pipeline
and LLM text handling, shallowly embedded from the TypeScript sources
(`services/BackgroundAgent.ts`, `services/LLMService.ts`,
`services/SQLiteService.ts`).  Strings are modelled as Lean `String`
(lists of characters); JavaScript regular-expression operations are
embedded as explicit recursive functions over `List Char`.
-/

namespace ViApp

/-! ## Character and string utilities shared by the embedded functions -/

/-- Whitespace class used by JavaScript's `String.prototype.trim` and the
regex class `\s`: ASCII whitespace plus NBSP, BOM and the Unicode line
separators (the exotic Unicode space characters beyond these never occur in
the inputs of interest and are omitted). -/
def isJsWs (c : Char) : Bool :=
  c = ' ' || c = '\t' || c = '\n' || c = '\r' || c = '\x0b' || c = '\x0c' ||
  c.toNat = 0xa0 || c.toNat = 0xfeff || c.toNat = 0x2028 || c.toNat = 0x2029

/-- JavaScript `trim` on a character list: drop JS whitespace from both ends. -/
def trimChars (cs : List Char) : List Char :=
  ((cs.dropWhile isJsWs).reverse.dropWhile isJsWs).reverse

/-- JavaScript `trim` on a string. -/
def jsTrim (s : String) : String :=
  String.mk (trimChars s.data)

/-- Lower-case a character list (JS `toLowerCase`; ASCII-accurate, which
covers every comparison the app performs). -/
def lowerChars (cs : List Char) : List Char :=
  cs.map Char.toLower

/-- Lower-case a string. -/
def strLower (s : String) : String :=
  String.mk (lowerChars s.data)

/-- JavaScript `String.prototype.includes`: `strIncludes needle hay` is true
when `needle` occurs as a contiguous substring of `hay`. -/
def strIncludes (needle : List Char) : List Char → Bool
  | [] => needle.isEmpty
  | c :: rest => needle.isPrefixOf (c :: rest) || strIncludes needle rest

/-- Case-sensitive check that `needle` occurs at the head of `hay`,
comparing characters case-insensitively. -/
def startsCI : List Char → List Char → Bool
  | [], _ => true
  | _ :: _, [] => false
  | n :: ns, h :: hs => (n.toLower = h.toLower) && startsCI ns hs

/-- Index of the first case-insensitive occurrence of `needle`, if any. -/
def findCI (needle : List Char) : List Char → Option Nat
  | [] => if needle.isEmpty then some 0 else none
  | c :: rest =>
    if startsCI needle (c :: rest) then some 0
    else (findCI needle rest).map (· + 1)

/-! ## Response sanitizer (`LLMService.cleanResponse`) -/

/-- The literal `"<think>"` as characters. -/
def thinkOpen : List Char := "<think>".data

/-- The literal `"</think>"` as characters. -/
def thinkClose : List Char := "</think>".data

/-- Fuelled worker for `removeThinkBlocks`; each iteration consumes at
least one character, so fuel equal to the input length always suffices and
the zero-fuel branch is unreachable from the wrapper. -/
def removeThinkBlocksF : Nat → List Char → List Char
  | 0, cs => cs
  | fuel + 1, cs =>
    match findCI thinkOpen cs with
    | none => cs
    | some i =>
      let rest := cs.drop (i + 7)
      match findCI thinkClose rest with
      | none => cs
      | some j => cs.take i ++ removeThinkBlocksF fuel (rest.drop (j + 8))

/-- Embedding of `text.replace(/<think>[\s\S]*?<\/think>/gi, '')`: repeatedly
pair the leftmost case-insensitive `<think>` with the nearest following
`</think>` and delete the whole span; an opener with no closer is left in
place (it is handled by the unterminated-tag pass). -/
def removeThinkBlocks (cs : List Char) : List Char :=
  removeThinkBlocksF cs.length cs

/-- Embedding of `cleaned.replace(/<think>[\s\S]*$/gi, '')`: delete from the
first remaining case-insensitive `<think>` to the end of the text. -/
def removeUnterminatedThink (cs : List Char) : List Char :=
  match findCI thinkOpen cs with
  | none => cs
  | some i => cs.take i

/-- Index of the first exact occurrence of `needle`, if any. -/
def findExact (needle : List Char) : List Char → Option Nat
  | [] => if needle.isEmpty then some 0 else none
  | c :: rest =>
    if needle.isPrefixOf (c :: rest) then some 0
    else (findExact needle rest).map (· + 1)

/-- Fuelled worker for `removeAllOcc`. -/
def removeAllOccF (needle : List Char) : Nat → List Char → List Char
  | 0, cs => cs
  | fuel + 1, cs =>
    match findExact needle cs with
    | none => cs
    | some i => cs.take i ++ removeAllOccF needle fuel (cs.drop (i + needle.length))

/-- Embedding of a global literal-string `replace(needle, '')`: delete every
(non-overlapping, leftmost-first) occurrence of `needle`.  Both needles the
sanitizer uses are non-empty, so fuel equal to the input length suffices. -/
def removeAllOcc (needle : List Char) (cs : List Char) : List Char :=
  if needle.isEmpty then cs else removeAllOccF needle cs.length cs

/-- Fuelled worker for `collapseNewlines`. -/
def collapseNewlinesF : Nat → List Char → List Char
  | 0, cs => cs
  | _ + 1, [] => []
  | fuel + 1, c :: rest =>
    if c = '\n' then
      if 2 ≤ (rest.takeWhile (· = '\n')).length then
        '\n' :: '\n' :: collapseNewlinesF fuel (rest.dropWhile (· = '\n'))
      else
        '\n' :: collapseNewlinesF fuel rest
    else
      c :: collapseNewlinesF fuel rest

/-- Embedding of `replace(/\n{3,}/g, '\n\n')`: collapse every maximal run of
three or more newlines to exactly two. -/
def collapseNewlines (cs : List Char) : List Char :=
  collapseNewlinesF cs.length cs

/-- Embedding of `LLMService.cleanResponse`: strip `<think>` blocks (then a
dangling opener), remove the ChatML turn delimiters, collapse excessive blank
lines and trim.  The source's `if (!text) return ''` guard is the
empty-string test. -/
def cleanResponse (text : String) : String :=
  if text = "" then ""
  else
    let c1 := removeThinkBlocks text.data
    let c2 := removeUnterminatedThink c1
    let c3 := removeAllOcc "<|im_end|>".data c2
    let c4 := removeAllOcc "<|im_start|>".data c3
    let c5 := collapseNewlines c4
    String.mk (trimChars c5)

/-! ## Suggestion-chip extraction (`LLMService.extractSuggestions` /
`removeSuggestions`) -/

/-- Split a character list at its first `']'`, returning the (possibly
empty) span before it and the remainder after it. -/
def spanToBracket : List Char → Option (List Char × List Char)
  | [] => none
  | c :: rest =>
    if c = ']' then some ([], rest)
    else (spanToBracket rest).map (fun p => (c :: p.1, p.2))

/-- Fuelled worker for `bracketTokens`. -/
def bracketTokensF : Nat → List Char → List (List Char)
  | 0, _ => []
  | _ + 1, [] => []
  | fuel + 1, c :: rest =>
    if c = '[' then
      match spanToBracket rest with
      | some (inner, after) =>
        if inner.isEmpty then bracketTokensF fuel rest
        else inner :: bracketTokensF fuel after
      | none => bracketTokensF fuel rest
    else bracketTokensF fuel rest

/-- Embedding of a global scan with `/\[([^\]]+)\]/g`: the inner texts of all
(leftmost, non-overlapping) bracket-enclosed tokens, in order. -/
def bracketTokens (cs : List Char) : List (List Char) :=
  bracketTokensF cs.length cs

/-- The segment of a string after its final newline (JS
`text.split('\n').pop() || ''`). -/
def lastLineChars (cs : List Char) : List Char :=
  (cs.reverse.takeWhile (· ≠ '\n')).reverse

/-- Embedding of `LLMService.extractSuggestions`: if the whole text has no
bracket token the result is empty; otherwise every bracket token of the last
line is captured (the source applies the same unanchored global regex to the
last line and strips the surrounding brackets). -/
def extractSuggestions (text : String) : List String :=
  if (bracketTokens text.data).isEmpty then []
  else (bracketTokens (lastLineChars text.data)).map String.mk

/-- Parse one `\[[^\]]+\]` token at the head of the list, returning the
remainder on success. -/
def tokenAfter (cs : List Char) : Option (List Char) :=
  match cs with
  | [] => none
  | c :: rest =>
    if c = '[' then
      match spanToBracket rest with
      | some (inner, after) => if inner.isEmpty then none else some after
      | none => none
    else none

/-- Fuelled worker for `groupToEnd`; every iteration consumes a token of at
least three characters, so fuel beyond the length is never exhausted. -/
def groupToEndF : Nat → List Char → Bool
  | 0, _ => false
  | fuel + 1, cs =>
    let ws := cs.dropWhile isJsWs
    match tokenAfter ws with
    | some rest => groupToEndF fuel rest
    | none => ws.isEmpty

/-- After one token has been consumed, check `(?:\s*\[[^\]]+\])*\s*$`. -/
def groupToEnd (cs : List Char) : Bool :=
  groupToEndF (cs.length + 1) cs

/-- Whether `/\s*\[([^\]]+)\](?:\s*\[([^\]]+)\])*\s*$/` matches the whole of
`cs` (i.e. the suffix starting here is a run of whitespace-separated bracket
tokens followed only by whitespace, with at least one token). -/
def matchTrailingGroup (cs : List Char) : Bool :=
  match tokenAfter (cs.dropWhile isJsWs) with
  | some rest => groupToEnd rest
  | none => false

/-- Delete the suffix at the leftmost position where the trailing-group
pattern matches to the end (JS `replace` with an end-anchored pattern). -/
def removeTrailingGroup : List Char → List Char
  | [] => []
  | c :: rest =>
    if matchTrailingGroup (c :: rest) then []
    else c :: removeTrailingGroup rest

/-- Embedding of `LLMService.removeSuggestions`: strip a trailing contiguous
group of bracket tokens (with surrounding whitespace), then trim. -/
def removeSuggestions (text : String) : String :=
  String.mk (trimChars (removeTrailingGroup text.data))

/-- Embedding of the sanitizing tail of `LLMService.generateResponse`
(lines 677-680): clean the raw completion, split off the suggestions and
remove them from the display text. -/
def sanitizeCompletion (raw : String) : String × List String :=
  let cleanedText := cleanResponse raw
  (removeSuggestions cleanedText, extractSuggestions cleanedText)

/-! ## JSON values and a JSON parser (embedding of `JSON.parse`)

The analysis-result parser calls JavaScript's `JSON.parse`.  We embed the
RFC 8259 grammar: whitespace, `null`/`true`/`false`, numbers (as rationals;
floating-point rounding plays no role in the pipeline), strings with the
standard escapes, arrays and objects.  The parser is fuelled for totality;
the fuel bound is generous enough for every input (each two recursion levels
consume at least one character). -/

inductive Json where
  | null
  | bool (b : Bool)
  | num (q : ℚ)
  | str (s : String)
  | arr (elems : List Json)
  | obj (fields : List (String × Json))

/-- JSON whitespace (`ws` in RFC 8259): space, tab, newline, carriage return. -/
def isJsonWs (c : Char) : Bool :=
  c = ' ' || c = '\t' || c = '\n' || c = '\r'

/-- Value of a hexadecimal digit, if the character is one. -/
def hexVal (c : Char) : Option Nat :=
  if 48 ≤ c.toNat ∧ c.toNat ≤ 57 then some (c.toNat - 48)
  else if 97 ≤ c.toNat ∧ c.toNat ≤ 102 then some (c.toNat - 87)
  else if 65 ≤ c.toNat ∧ c.toNat ≤ 70 then some (c.toNat - 55)
  else none

/-- Numeric value of a digit string. -/
def digitsVal (ds : List Char) : Nat :=
  ds.foldl (fun a c => a * 10 + (c.toNat - 48)) 0

/-- Parse the body of a JSON string literal (the opening quote already
consumed), returning the decoded characters and the remainder after the
closing quote.  Unescaped control characters are invalid; `\\u` escapes
decode to the corresponding character (a lone surrogate collapses to the
default character, which never matters for the app's inputs). -/
def parseStringBody : Nat → List Char → Option (List Char × List Char)
  | 0, _ => none
  | _ + 1, [] => none
  | fuel + 1, c :: rest =>
    if c = '"' then some ([], rest)
    else if c = '\\' then
      match rest with
      | [] => none
      | e :: rest2 =>
        if e = '"' ∨ e = '\\' ∨ e = '/' then
          (parseStringBody fuel rest2).map (fun p => (e :: p.1, p.2))
        else if e = 'b' then
          (parseStringBody fuel rest2).map (fun p => ('\x08' :: p.1, p.2))
        else if e = 'f' then
          (parseStringBody fuel rest2).map (fun p => ('\x0c' :: p.1, p.2))
        else if e = 'n' then
          (parseStringBody fuel rest2).map (fun p => ('\n' :: p.1, p.2))
        else if e = 'r' then
          (parseStringBody fuel rest2).map (fun p => ('\r' :: p.1, p.2))
        else if e = 't' then
          (parseStringBody fuel rest2).map (fun p => ('\t' :: p.1, p.2))
        else if e = 'u' then
          match rest2 with
          | h1 :: h2 :: h3 :: h4 :: rest3 =>
            match hexVal h1, hexVal h2, hexVal h3, hexVal h4 with
            | some a, some b, some c3, some d =>
              (parseStringBody fuel rest3).map
                (fun p => (Char.ofNat (((a * 16 + b) * 16 + c3) * 16 + d) :: p.1, p.2))
            | _, _, _, _ => none
          | _ => none
        else none
    else if c.toNat < 32 then none
    else (parseStringBody fuel rest).map (fun p => (c :: p.1, p.2))

/-- Parse a JSON number at the head of the input.  An ill-formed fraction or
exponent tail is left unconsumed, which makes the surrounding context reject
it, exactly as `JSON.parse` does. -/
def parseNumberChars (cs : List Char) : Option (ℚ × List Char) :=
  let signSplit : Bool × List Char :=
    match cs with
    | '-' :: t => (true, t)
    | _ => (false, cs)
  let neg := signSplit.1
  let cs1 := signSplit.2
  match cs1 with
  | [] => none
  | c :: _ =>
    if ¬ c.isDigit then none
    else
      let intSplit : List Char × List Char :=
        if c = '0' then (['0'], cs1.drop 1)
        else (cs1.takeWhile Char.isDigit, cs1.dropWhile Char.isDigit)
      let intPart : ℚ := digitsVal intSplit.1
      let r1 := intSplit.2
      let fracSplit : ℚ × List Char :=
        match r1 with
        | '.' :: t =>
          let fd := t.takeWhile Char.isDigit
          if fd.isEmpty then ((0 : ℚ), r1)
          else ((digitsVal fd : ℚ) / (10 : ℚ) ^ fd.length, t.dropWhile Char.isDigit)
        | _ => ((0 : ℚ), r1)
      let r2 := fracSplit.2
      let expSplit : ℤ × List Char :=
        match r2 with
        | c2 :: t =>
          if c2 = 'e' ∨ c2 = 'E' then
            let es : ℤ × List Char :=
              match t with
              | '+' :: u => ((1 : ℤ), u)
              | '-' :: u => ((-1 : ℤ), u)
              | _ => ((1 : ℤ), t)
            let ed := es.2.takeWhile Char.isDigit
            if ed.isEmpty then ((0 : ℤ), r2)
            else (es.1 * (digitsVal ed : ℤ), es.2.dropWhile Char.isDigit)
          else ((0 : ℤ), r2)
        | _ => ((0 : ℤ), r2)
      let mag : ℚ := (intPart + fracSplit.1) * (10 : ℚ) ^ expSplit.1
      some ((if neg then -mag else mag), expSplit.2)

mutual

/-- Parse one JSON value (leading whitespace allowed). -/
def parseJsonVal : Nat → List Char → Option (Json × List Char)
  | 0, _ => none
  | fuel + 1, cs0 =>
    let cs := cs0.dropWhile isJsonWs
    match cs with
    | [] => none
    | c :: rest =>
      if c = '{' then
        let rest1 := rest.dropWhile isJsonWs
        match rest1 with
        | '}' :: r => some (.obj [], r)
        | _ =>
          match parseObjFields fuel rest with
          | some (fs, r) => some (.obj fs, r)
          | none => none
      else if c = '[' then
        let rest1 := rest.dropWhile isJsonWs
        match rest1 with
        | ']' :: r => some (.arr [], r)
        | _ =>
          match parseArrElems fuel rest with
          | some (vs, r) => some (.arr vs, r)
          | none => none
      else if c = '"' then
        match parseStringBody (rest.length + 1) rest with
        | some (body, r) => some (.str (String.mk body), r)
        | none => none
      else if c = 't' then
        if "true".data.isPrefixOf cs then some (.bool true, cs.drop 4) else none
      else if c = 'f' then
        if "false".data.isPrefixOf cs then some (.bool false, cs.drop 5) else none
      else if c = 'n' then
        if "null".data.isPrefixOf cs then some (.null, cs.drop 4) else none
      else if c = '-' ∨ c.isDigit then
        match parseNumberChars cs with
        | some (q, r) => some (.num q, r)
        | none => none
      else none

/-- Parse the elements of a non-empty JSON array (the `[` already consumed). -/
def parseArrElems : Nat → List Char → Option (List Json × List Char)
  | 0, _ => none
  | fuel + 1, cs =>
    match parseJsonVal fuel cs with
    | none => none
    | some (v, r0) =>
      let r := r0.dropWhile isJsonWs
      match r with
      | ',' :: r2 =>
        match parseArrElems fuel r2 with
        | some (vs, r3) => some (v :: vs, r3)
        | none => none
      | ']' :: r2 => some ([v], r2)
      | _ => none

/-- Parse the fields of a non-empty JSON object (the `{` already consumed). -/
def parseObjFields : Nat → List Char → Option (List (String × Json) × List Char)
  | 0, _ => none
  | fuel + 1, cs0 =>
    let cs := cs0.dropWhile isJsonWs
    match cs with
    | '"' :: rest =>
      match parseStringBody (rest.length + 1) rest with
      | some (key, r0) =>
        let r := r0.dropWhile isJsonWs
        match r with
        | ':' :: r2 =>
          match parseJsonVal fuel r2 with
          | some (v, r3) =>
            let r4 := r3.dropWhile isJsonWs
            match r4 with
            | ',' :: r5 =>
              match parseObjFields fuel r5 with
              | some (fs, r6) => some ((String.mk key, v) :: fs, r6)
              | none => none
            | '}' :: r5 => some ([(String.mk key, v)], r5)
            | _ => none
          | none => none
        | _ => none
      | none => none
    | _ => none

end

/-- Parse a complete JSON document from a character list: one value, then
only whitespace (embedding of `JSON.parse`, which rejects trailing input). -/
def jsonParseChars (cs : List Char) : Option Json :=
  match parseJsonVal (2 * cs.length + 8) cs with
  | some (v, rest) => if (rest.dropWhile isJsonWs).isEmpty then some v else none
  | none => none

/-- Embedding of `JSON.parse` on a string. -/
def jsonParse (s : String) : Option Json :=
  jsonParseChars s.data

/-! ## Analysis-result parser (`BackgroundAgent.parseAnalysisResult`) -/

/-- JavaScript property access `j[k]` on a parsed JSON value: a lookup on an
object (with the last duplicate key winning, as in a JS object literal), and
`undefined` (`none`) on everything else. -/
def jget (j : Json) (k : String) : Option Json :=
  match j with
  | .obj fields => ((fields.filter (fun p => p.1 = k)).getLast?).map (fun p => p.2)
  | _ => none

/-- Embedding of `Array.isArray(v) ? v : []`, with `none` standing for an
absent (`undefined`) property. -/
def asArr : Option Json → List Json
  | some (.arr l) => l
  | _ => []

/-- The result of `parseAnalysisResult`: the four keys of the analysis JSON,
each coerced to an array of (still unvalidated) JSON items. -/
structure ParsedAnalysis where
  notes : List Json
  listItems : List Json
  completedGoals : List Json
  mindmapNodes : List Json

/-- The preprocessing in `parseAnalysisResult` (lines 104-109): trim, strip
an optional leading case-insensitive ```` ```json ```` fence opener with an
optional newline, strip an optional trailing fence closer with an optional
preceding newline, trim again. -/
def stripFenceOpen (cs : List Char) : List Char :=
  if lowerChars (cs.take 7) = "```json".data then
    let r := cs.drop 7
    match r with
    | '\n' :: r2 => r2
    | _ => r
  else cs

/-- Strip a trailing fence closer (regex `/\n?```$/`). -/
def stripFenceClose (cs : List Char) : List Char :=
  let rev := cs.reverse
  if rev.take 3 = "```".data then
    let rev2 := rev.drop 3
    let rev3 :=
      match rev2 with
      | '\n' :: t => t
      | _ => rev2
    rev3.reverse
  else cs

/-- The cleaned JSON text handed to `JSON.parse` by `parseAnalysisResult`. -/
def cleanAnalysisJson (rawJson : String) : List Char :=
  trimChars (stripFenceClose (stripFenceOpen (trimChars rawJson.data)))

/-- Embedding of `BackgroundAgent.parseAnalysisResult` (lines 101-125):
preprocess, `JSON.parse`, then coerce each of the four expected keys to an
array.  A parse failure returns `none`; a parse result of JSON `null` also
returns `none`, because the property access `parsed.notes` on `null` throws
a `TypeError` that the surrounding `try`/`catch` turns into `null`. -/
def parseAnalysisResult (rawJson : String) : Option ParsedAnalysis :=
  match jsonParseChars (cleanAnalysisJson rawJson) with
  | none => none
  | some .null => none
  | some j =>
    some { notes := asArr (jget j "notes")
           listItems := asArr (jget j "listItems")
           completedGoals := asArr (jget j "completedGoals")
           mindmapNodes := asArr (jget j "mindmapNodes") }

/-! ## Record store (embedding of `SQLiteService`)

Each table is a list of rows; a row's position in the list reflects the
order in which the corresponding read operation returns it (the pipeline's
reads use the store's default ordering: `getAllMessages` is ascending by
timestamp, `getListItems`/`getAllMindmapNodes` ascending by creation time,
i.e. insertion order, and `getAllLists`/`getAllGoals` a fixed
creation-time ordering that the pipeline only ever scans front to back).
Autoincrement identifiers are modelled by per-table counters. -/

structure Message where
  id : Nat
  content : String
  sender : String
deriving DecidableEq, Inhabited

structure NoteRec where
  id : Nat
  title : String
  body : String
  created_by : String
  tags : Option String
deriving DecidableEq

structure ListRec where
  id : Nat
  title : String
  type : String
deriving DecidableEq

structure ListItemRec where
  id : Nat
  list_id : Nat
  content : String
  is_completed : Bool
deriving DecidableEq

structure GoalRec where
  id : Nat
  title : String
  frequency : String
  streak_count : Nat
  last_completed_date : Option String
  target_count : Option Nat
deriving DecidableEq

structure MindmapNodeRec where
  id : Nat
  label : String
  category : String
  confidence_score : ℚ
  linked_node_id : Option Nat
deriving DecidableEq

structure UserRec where
  id : Nat
  name : String
  traits_json : String
deriving DecidableEq

structure Store where
  messages : List Message
  notes : List NoteRec
  lists : List ListRec
  listItems : List ListItemRec
  goals : List GoalRec
  mindmapNodes : List MindmapNodeRec
  users : List UserRec
  nextNoteId : Nat
  nextListId : Nat
  nextItemId : Nat
  nextNodeId : Nat
deriving DecidableEq

/-- `dbService.getAllMessages()`: the message log in ascending timestamp
order. -/
def Store.getAllMessages (s : Store) : List Message := s.messages

/-- `dbService.addNote(title, body, createdBy, tags)`. -/
def Store.addNote (s : Store) (title body createdBy : String)
    (tags : Option String) : Nat × Store :=
  (s.nextNoteId,
   { s with notes := s.notes ++ [⟨s.nextNoteId, title, body, createdBy, tags⟩]
            nextNoteId := s.nextNoteId + 1 })

/-- `dbService.getAllLists()`. -/
def Store.getAllLists (s : Store) : List ListRec := s.lists

/-- `dbService.createList(title, type)`, returning the new row id. -/
def Store.createList (s : Store) (title ty : String) : Nat × Store :=
  (s.nextListId,
   { s with lists := s.lists ++ [⟨s.nextListId, title, ty⟩]
            nextListId := s.nextListId + 1 })

/-- `dbService.addListItem(listId, content)` (`is_completed` defaults to
false). -/
def Store.addListItem (s : Store) (listId : Nat) (content : String) :
    Nat × Store :=
  (s.nextItemId,
   { s with listItems := s.listItems ++ [⟨s.nextItemId, listId, content, false⟩]
            nextItemId := s.nextItemId + 1 })

/-- `dbService.getListItems(listId)`: the entries of one container, in
insertion order. -/
def Store.getListItems (s : Store) (listId : Nat) : List ListItemRec :=
  s.listItems.filter (fun it => it.list_id = listId)

/-- `dbService.getAllGoals()`. -/
def Store.getAllGoals (s : Store) : List GoalRec := s.goals

/-- `dbService.updateGoalStreak(goalId)` (lines 303-311 of
`SQLiteService.ts`): add one to the streak counter and stamp the
last-completed date with the current wall-clock reading, passed in here as
`now`. -/
def Store.updateGoalStreak (s : Store) (goalId : Nat) (now : String) : Store :=
  { s with goals := s.goals.map (fun g =>
      if g.id = goalId then
        { g with streak_count := g.streak_count + 1
                 last_completed_date := some now }
      else g) }

/-- `dbService.getAllMindmapNodes()`: insertion order. -/
def Store.getAllMindmapNodes (s : Store) : List MindmapNodeRec :=
  s.mindmapNodes

/-- `dbService.addMindmapNode(label, category, confidence)` (no link is ever
passed by the pipeline). -/
def Store.addMindmapNode (s : Store) (label category : String)
    (confidence : ℚ) : Nat × Store :=
  (s.nextNodeId,
   { s with mindmapNodes :=
              s.mindmapNodes ++ [⟨s.nextNodeId, label, category, confidence, none⟩]
            nextNodeId := s.nextNodeId + 1 })

/-! ## Failure-injected store calls

Every awaited `dbService` call can raise (an engine error).  A run carries
an oracle: a list of booleans, one consumed per store call, `true` meaning
that call throws.  An exhausted oracle means no further failures.  A failing
call leaves the store unchanged. -/

/-- Outcome of a sequence of store calls: either a value with the updated
store and remaining oracle, or an exception carrying the store (with all
mutations made before the failure) and remaining oracle. -/
inductive DbRes (α : Type) where
  | ok (a : α) (s : Store) (o : List Bool)
  | err (s : Store) (o : List Bool)
deriving DecidableEq

/-- The store after a (possibly failed) sequence of calls. -/
def DbRes.store {α : Type} : DbRes α → Store
  | .ok _ s _ => s
  | .err s _ => s

/-- Whether the sequence of calls completed without an exception. -/
def DbRes.isOk {α : Type} : DbRes α → Bool
  | .ok _ _ _ => true
  | .err _ _ => false

/-- Run one store call against the failure oracle. -/
def dbStep {α : Type} (f : Store → α × Store) (s : Store) (o : List Bool) :
    DbRes α :=
  match o with
  | [] => .ok (f s).1 (f s).2 []
  | b :: o' => if b then .err s o' else .ok (f s).1 (f s).2 o'

/-! ## The analysis result as consumed by `applyAnalysisResults`

The apply loops read the fields named in the `AnalysisResult` interface;
string fields are tested for JS truthiness, which for strings is
non-emptiness. -/

structure NoteInput where
  title : String
  body : String
deriving DecidableEq

structure ListGroup where
  listName : String
  items : List String
deriving DecidableEq

structure GoalCompletion where
  title : String
deriving DecidableEq

/-- A mindmap item; `confidence = none` models an absent (`undefined`)
field, and `node.confidence || 0.8` also replaces a present falsy value
(`0`). -/
structure MindmapInput where
  label : String
  category : String
  confidence : Option ℚ
deriving DecidableEq

structure AnalysisResult where
  notes : List NoteInput
  listItems : List ListGroup
  completedGoals : List GoalCompletion
  mindmapNodes : List MindmapInput
deriving DecidableEq

/-- The bidirectional case-insensitive substring match used for both list
containers (lines 143-146) and goals (lines 179-182):
`a.toLowerCase().includes(b.toLowerCase()) ||
 b.toLowerCase().includes(a.toLowerCase())`. -/
def titlesMatch (existingTitle incoming : String) : Bool :=
  strIncludes (lowerChars incoming.data) (lowerChars existingTitle.data) ||
  strIncludes (lowerChars existingTitle.data) (lowerChars incoming.data)

/-- Fuelled worker for `underscoreRuns`. -/
def underscoreRunsF : Nat → List Char → List Char
  | 0, cs => cs
  | _ + 1, [] => []
  | fuel + 1, c :: rest =>
    if isJsWs c then '_' :: underscoreRunsF fuel (rest.dropWhile isJsWs)
    else c :: underscoreRunsF fuel rest

/-- `listGroup.listName.toLowerCase().replace(/\s+/g, '_')`: lower-case and
replace each maximal whitespace run by one underscore. -/
def underscoreRuns (cs : List Char) : List Char :=
  underscoreRunsF cs.length cs

/-- The category string for a newly created list (line 165). -/
def listCategoryOf (listName : String) : String :=
  String.mk (underscoreRuns (lowerChars listName.data))

/-- `node.confidence || 0.8`: default the confidence when the field is
absent or falsy. -/
def confidenceOrDefault (c : Option ℚ) : ℚ :=
  match c with
  | none => (0.8 : ℚ)
  | some q => if q = 0 then (0.8 : ℚ) else q

/-! ## The apply step (`BackgroundAgent.applyAnalysisResults`, lines 130-209)

The loops run sequentially; there is no per-item exception handling, so a
failing store call aborts the whole apply and propagates to the caller. -/

/-- Loop 1 (lines 132-137): add each note with both fields non-empty. -/
def applyNotes : List NoteInput → Store → List Bool → DbRes Unit
  | [], s, o => .ok () s o
  | n :: rest, s, o =>
    if n.title ≠ "" ∧ n.body ≠ "" then
      match dbStep (fun s => Store.addNote s n.title n.body "vi" none) s o with
      | .err s' o' => .err s' o'
      | .ok _ s' o' => applyNotes rest s' o'
    else applyNotes rest s o

/-- Inner loop of the matched-container branch (lines 149-160): for each
item, re-read the container's entries, skip case-insensitive duplicates,
insert otherwise. -/
def applyItemsMatched (targetId : Nat) :
    List String → Store → List Bool → DbRes Unit
  | [], s, o => .ok () s o
  | item :: rest, s, o =>
    match dbStep (fun s => (Store.getListItems s targetId, s)) s o with
    | .err s' o' => .err s' o'
    | .ok existingItems s' o' =>
      if existingItems.any
          (fun ex => strLower ex.content = strLower item) then
        applyItemsMatched targetId rest s' o'
      else
        match dbStep (fun s => Store.addListItem s targetId item) s' o' with
        | .err s'' o'' => .err s'' o''
        | .ok _ s'' o'' => applyItemsMatched targetId rest s'' o''

/-- Inner loop of the new-container branch (lines 168-170): insert every
item unconditionally. -/
def addAllItems (listId : Nat) : List String → Store → List Bool → DbRes Unit
  | [], s, o => .ok () s o
  | item :: rest, s, o =>
    match dbStep (fun s => Store.addListItem s listId item) s o with
    | .err s' o' => .err s' o'
    | .ok _ s' o' => addAllItems listId rest s' o'

/-- Loop 2 (lines 140-174): per group, re-read the containers, take the
first bidirectional case-insensitive title match, dedup-insert there, or
create a fresh container and insert everything. -/
def applyListGroups : List ListGroup → Store → List Bool → DbRes Unit
  | [], s, o => .ok () s o
  | g :: rest, s, o =>
    match dbStep (fun s => (Store.getAllLists s, s)) s o with
    | .err s' o' => .err s' o'
    | .ok allLists s' o' =>
      match allLists.find? (fun l => titlesMatch l.title g.listName) with
      | some targetList =>
        match applyItemsMatched targetList.id g.items s' o' with
        | .err s'' o'' => .err s'' o''
        | .ok _ s'' o'' => applyListGroups rest s'' o''
      | none =>
        match dbStep
            (fun s => Store.createList s g.listName (listCategoryOf g.listName))
            s' o' with
        | .err s'' o'' => .err s'' o''
        | .ok newListId s'' o'' =>
          match addAllItems newListId g.items s'' o'' with
          | .err s3 o3 => .err s3 o3
          | .ok _ s3 o3 => applyListGroups rest s3 o3

/-- Loop 3 (lines 177-188): per completion, re-read the goals, bump the
streak of the first title match, silently skip when nothing matches. -/
def applyGoals (now : String) :
    List GoalCompletion → Store → List Bool → DbRes Unit
  | [], s, o => .ok () s o
  | gc :: rest, s, o =>
    match dbStep (fun s => (Store.getAllGoals s, s)) s o with
    | .err s' o' => .err s' o'
    | .ok allGoals s' o' =>
      match allGoals.find? (fun g => titlesMatch g.title gc.title) with
      | some targetGoal =>
        match dbStep
            (fun s => ((), Store.updateGoalStreak s targetGoal.id now)) s' o' with
        | .err s'' o'' => .err s'' o''
        | .ok _ s'' o'' => applyGoals now rest s'' o''
      | none => applyGoals now rest s' o'

/-- Loop 4 (lines 191-208): per node with label and category present,
re-read the facts, skip on a case-insensitive exact label match, otherwise
create with the defaulted confidence. -/
def applyMindmap : List MindmapInput → Store → List Bool → DbRes Unit
  | [], s, o => .ok () s o
  | node :: rest, s, o =>
    if node.label ≠ "" ∧ node.category ≠ "" then
      match dbStep (fun s => (Store.getAllMindmapNodes s, s)) s o with
      | .err s' o' => .err s' o'
      | .ok existingNodes s' o' =>
        if existingNodes.any
            (fun ex => strLower ex.label = strLower node.label) then
          applyMindmap rest s' o'
        else
          match dbStep
              (fun s => Store.addMindmapNode s node.label node.category
                (confidenceOrDefault node.confidence)) s' o' with
          | .err s'' o'' => .err s'' o''
          | .ok _ s'' o'' => applyMindmap rest s'' o''
    else applyMindmap rest s o

/-- Embedding of `BackgroundAgent.applyAnalysisResults`: the four loops in
sequence, any store exception propagating immediately. -/
def applyAnalysisResults (analysis : AnalysisResult) (now : String)
    (s : Store) (o : List Bool) : DbRes Unit :=
  match applyNotes analysis.notes s o with
  | .err s1 o1 => .err s1 o1
  | .ok _ s1 o1 =>
    match applyListGroups analysis.listItems s1 o1 with
    | .err s2 o2 => .err s2 o2
    | .ok _ s2 o2 =>
      match applyGoals now analysis.completedGoals s2 o2 with
      | .err s3 o3 => .err s3 o3
      | .ok _ s3 o3 => applyMindmap analysis.mindmapNodes s3 o3

/-! ## Bridging the raw parse result to the apply step

`applyAnalysisResults` receives the parsed arrays unvalidated; the loops
read the interface's fields directly.  The decoders below model the field
accesses: an absent or non-string field reads as `undefined`, which every
guard in the loops treats as falsy, modelled by the empty string (a
non-string truthy field, which the well-formed analysis schema never
produces, is outside the model). -/

/-- Read a property as the string it holds, with `undefined`/non-string
collapsed to the falsy `""`. -/
def jstr (v : Option Json) : String :=
  match v with
  | some (.str s) => s
  | _ => ""

/-- Read a property as a number if it holds one. -/
def jnum (v : Option Json) : Option ℚ :=
  match v with
  | some (.num q) => some q
  | _ => none

def decodeNote (j : Json) : NoteInput :=
  ⟨jstr (jget j "title"), jstr (jget j "body")⟩

def decodeGroup (j : Json) : ListGroup :=
  ⟨jstr (jget j "listName"),
   (asArr (jget j "items")).map (fun it => jstr (some it))⟩

def decodeGoal (j : Json) : GoalCompletion :=
  ⟨jstr (jget j "title")⟩

def decodeNode (j : Json) : MindmapInput :=
  ⟨jstr (jget j "label"), jstr (jget j "category"), jnum (jget j "confidence")⟩

def decodeAnalysis (p : ParsedAnalysis) : AnalysisResult :=
  { notes := p.notes.map decodeNote
    listItems := p.listItems.map decodeGroup
    completedGoals := p.completedGoals.map decodeGoal
    mindmapNodes := p.mindmapNodes.map decodeNode }

/-! ## The pipeline driver (`BackgroundAgent.processRecentConversations`,
lines 32-96) -/

/-- The mutable fields of the `BackgroundAgent` singleton. -/
structure AgentState where
  isProcessing : Bool
  lastProcessedMessageId : Nat
deriving DecidableEq

/-- The environment of one run: whether the completion engine reports
ready, the raw analysis text it returns (`none` models
`analyzeConversation` throwing), the wall-clock reading used for goal
updates, and the store-failure oracle. -/
structure RunEnv where
  llmReady : Bool
  analysisRaw : Option String
  now : String
  oracle : List Bool
deriving DecidableEq

/-- Embedding of one call to `processRecentConversations`.  Every early
return, the `catch` and the `finally` leave `isProcessing` false in the
returned state; the high-water mark advances only when the apply step
completes. -/
def processRecentConversations (st : AgentState) (s : Store) (env : RunEnv) :
    AgentState × Store :=
  if st.isProcessing then (st, s)
  else if !env.llmReady then (st, s)
  else
    match dbStep (fun s => (Store.getAllMessages s, s)) s env.oracle with
    | .err s' _ => ({ st with isProcessing := false }, s')
    | .ok allMessages s1 o1 =>
      if allMessages.isEmpty then ({ st with isProcessing := false }, s1)
      else
        let newMessages :=
          allMessages.filter (fun m => st.lastProcessedMessageId < m.id)
        if newMessages.length < 2 then ({ st with isProcessing := false }, s1)
        else
          match env.analysisRaw with
          | none => ({ st with isProcessing := false }, s1)
          | some rawAnalysis =>
            match parseAnalysisResult rawAnalysis with
            | none => ({ st with isProcessing := false }, s1)
            | some parsed =>
              match applyAnalysisResults (decodeAnalysis parsed) env.now s1 o1 with
              | .err s2 _ => ({ st with isProcessing := false }, s2)
              | .ok _ s2 _ =>
                ({ isProcessing := false
                   lastProcessedMessageId :=
                     (newMessages.getLastD default).id }, s2)

/-- A sequence of pipeline runs. -/
def runSeq (st : AgentState) (s : Store) : List RunEnv → AgentState × Store
  | [] => (st, s)
  | env :: rest =>
    let p := processRecentConversations st s env
    runSeq p.1 p.2 rest

/-! ## Prompt builder (`LLMService.buildChatMLPrompt`, lines 691-703) -/

/-- One role-tagged history block: the role is mapped to `user` or
`assistant` from the message's sender. -/
def chatBlock (msg : Message) : String :=
  "<|im_start|>" ++ (if msg.sender = "user" then "user" else "assistant") ++
    "\n" ++ msg.content ++ "<|im_end|>\n"

/-- `conversationHistory.slice(-6)`: the most recent six turns (all of them
when fewer exist; truncated Nat subtraction matches the clamping of a
negative slice start to zero). -/
def recentSix (conversationHistory : List Message) : List Message :=
  conversationHistory.drop (conversationHistory.length - 6)

/-- Embedding of `buildChatMLPrompt`: system block, one block per retained
history turn (accumulated left to right as the source's `forEach` does), the
new user block, then an open assistant tag with no closing marker. -/
def buildChatMLPrompt (systemPrompt userMessage : String)
    (conversationHistory : List Message) : String :=
  let base := "<|im_start|>system\n" ++ systemPrompt ++ "<|im_end|>\n"
  let withHistory :=
    (recentSix conversationHistory).foldl (fun acc msg => acc ++ chatBlock msg) base
  withHistory ++ ("<|im_start|>user\n" ++ userMessage ++ "<|im_end|>\n") ++
    "<|im_start|>assistant\n"

/-- Concatenation of the blocks of a list of turns, in order. -/
def concatBlocks (l : List Message) : String :=
  (l.map chatBlock).foldr (fun a b => a ++ b) ""

/-! ## Spec-side descriptions used for refinement-style statements -/

/-- Spec-side description of duplicate-avoiding insertion into a matched
container: fold the incoming items over the container's current entry
texts, appending each item unless a case-insensitive equal entry is already
present (the check sees entries added by earlier items of the same batch,
since the source re-reads the container before every item). -/
def dedupAppend (existing : List String) : List String → List String
  | [] => existing
  | item :: rest =>
    if existing.any (fun e => strLower e = strLower item) then
      dedupAppend existing rest
    else
      dedupAppend (existing ++ [item]) rest

/-- Frame condition for one goal row across an apply step: only the streak
counter (which may only grow) and the last-completed date (either untouched
or stamped with the run's wall-clock reading) may change. -/
def goalFrameOk (now : String) (g g' : GoalRec) : Prop :=
  g'.id = g.id ∧ g'.title = g.title ∧ g'.frequency = g.frequency ∧
  g'.target_count = g.target_count ∧ g.streak_count ≤ g'.streak_count ∧
  (g'.last_completed_date = g.last_completed_date ∨
   g'.last_completed_date = some now)

/-- Frame condition for the whole store across an apply step: notes, lists,
list entries and mindmap facts only gain appended rows; messages and user
profiles are untouched; goals change row-for-row within `goalFrameOk`. -/
def ExtendsOnly (now : String) (s s' : Store) : Prop :=
  s'.messages = s.messages ∧
  s'.users = s.users ∧
  (∃ new, s'.notes = s.notes ++ new) ∧
  (∃ new, s'.lists = s.lists ++ new) ∧
  (∃ new, s'.listItems = s.listItems ++ new) ∧
  (∃ new, s'.mindmapNodes = s.mindmapNodes ++ new) ∧
  List.Forall₂ (goalFrameOk now) s.goals s'.goals

/-! ## Concrete fixtures used by counterexamples and witnesses -/

/-- A store with every table empty. -/
def emptyStore : Store :=
  { messages := [], notes := [], lists := [], listItems := [], goals := []
    mindmapNodes := [], users := [], nextNoteId := 1, nextListId := 1
    nextItemId := 1, nextNodeId := 1 }

/-- A store holding one user/assistant message pair. -/
def twoMsgStore : Store :=
  { emptyStore with
    messages := [⟨1, "hi", "user"⟩, ⟨2, "hello", "assistant"⟩] }

/-- An analysis result holding two well-formed notes and nothing else. -/
def twoNotesAnalysis : AnalysisResult :=
  ⟨[⟨"t1", "b1"⟩, ⟨"t2", "b2"⟩], [], [], []⟩

/-- A store holding a single empty list container titled `Groceries`. -/
def groceriesStore : Store :=
  { emptyStore with lists := [⟨5, "Groceries", "grocery"⟩], nextListId := 6 }

/-- A store holding a single goal `Morning Run` with streak 4. -/
def goalStore : Store :=
  { emptyStore with goals := [⟨3, "Morning Run", "daily", 4, none, some 5⟩] }

/-! ## Theorems -/

theorem find?_append_first {α : Type} (p : α → Bool) (l₁ l₂ : List α) (x : α)
    (h1 : ∀ y ∈ l₁, p y = false) (hx : p x = true) :
    (l₁ ++ x :: l₂).find? p = some x := by
  induction l₁ with
  | nil => simpa using List.find?_cons_of_pos _ hx
  | cons a t ih =>
    have ha : p a = false := h1 a (by simp)
    rw [List.cons_append, List.find?_cons_of_neg _ (by simp [ha])]
    exact ih (fun y hy => h1 y (List.mem_cons_of_mem _ hy))

theorem applyAnalysisResults_notes_only (ns : List NoteInput) (now : String)
    (s : Store) (o : List Bool) :
    applyAnalysisResults ⟨ns, [], [], []⟩ now s o = applyNotes ns s o := by
  simp only [applyAnalysisResults]
  cases h : applyNotes ns s o with
  | ok a s1 o1 => simp [applyListGroups, applyGoals, applyMindmap]
  | err s1 o1 => simp

theorem applyAnalysisResults_lists_only (gs : List ListGroup) (now : String)
    (s : Store) (o : List Bool) :
    applyAnalysisResults ⟨[], gs, [], []⟩ now s o = applyListGroups gs s o := by
  simp only [applyAnalysisResults, applyNotes]
  cases h : applyListGroups gs s o with
  | ok a s1 o1 => simp [applyGoals, applyMindmap]
  | err s1 o1 => simp

theorem applyAnalysisResults_goals_only (gcs : List GoalCompletion)
    (now : String) (s : Store) (o : List Bool) :
    applyAnalysisResults ⟨[], [], gcs, []⟩ now s o = applyGoals now gcs s o := by
  simp only [applyAnalysisResults, applyNotes, applyListGroups]
  cases h : applyGoals now gcs s o with
  | ok a s1 o1 => simp [applyMindmap]
  | err s1 o1 => simp

theorem applyAnalysisResults_mindmap_only (ns : List MindmapInput)
    (now : String) (s : Store) (o : List Bool) :
    applyAnalysisResults ⟨[], [], [], ns⟩ now s o = applyMindmap ns s o := rfl

/-- C5: applying a completed-goal entry whose title matches an existing
goal (bidirectional case-insensitive substring, first match in store order)
increments exactly that goal's streak counter by one and stamps its
last-completed date with the current wall-clock reading, leaving every
other field and row unchanged; when no goal matches, the goal table — in
fact the whole store — is left unchanged and no row is created. -/
theorem C5_goal_completion :
    (∀ (now : String) (gc : GoalCompletion) (s : Store)
        (l₁ l₂ : List GoalRec) (t : GoalRec),
        s.goals = l₁ ++ t :: l₂ →
        (∀ g ∈ l₁, titlesMatch g.title gc.title = false) →
        titlesMatch t.title gc.title = true →
        (∀ g ∈ l₁, g.id ≠ t.id) →
        (∀ g ∈ l₂, g.id ≠ t.id) →
        (applyAnalysisResults ⟨[], [], [gc], []⟩ now s []).store.goals =
          l₁ ++ { t with streak_count := t.streak_count + 1
                         last_completed_date := some now } :: l₂)
    ∧ (∀ (now : String) (gc : GoalCompletion) (s : Store),
        (∀ g ∈ s.goals, titlesMatch g.title gc.title = false) →
        (applyAnalysisResults ⟨[], [], [gc], []⟩ now s []).store = s) := by
  constructor
  · intro now gc s l₁ l₂ t hgoals h1 hx hid1 hid2
    rw [applyAnalysisResults_goals_only]
    simp only [applyGoals, dbStep, Store.getAllGoals]
    rw [hgoals, find?_append_first _ l₁ l₂ t h1 hx]
    simp only [applyGoals, DbRes.store, Store.updateGoalStreak, hgoals,
      List.map_append, List.map_cons]
    have e1 : l₁.map (fun g => if g.id = t.id then
        { g with streak_count := g.streak_count + 1
                 last_completed_date := some now } else g) = l₁ := by
      rw [List.map_congr_left (fun g hg => by
        rw [if_neg (hid1 g hg)]), List.map_id']
    have e2 : l₂.map (fun g => if g.id = t.id then
        { g with streak_count := g.streak_count + 1
                 last_completed_date := some now } else g) = l₂ := by
      rw [List.map_congr_left (fun g hg => by
        rw [if_neg (hid2 g hg)]), List.map_id']
    simp [e1, e2]
  · intro now gc s h
    rw [applyAnalysisResults_goals_only]
    simp only [applyGoals, dbStep, Store.getAllGoals]
    rw [List.find?_eq_none.mpr (fun g hg => by simp [h g hg])]
    simp [DbRes.store]

/-- C5 witness: the match clause applied at a store holding the goal
`Morning Run` with streak 4 and the completion title `run`, and the
no-match clause at the same store with the title `swim`. -/
theorem C5_witness :
    (applyAnalysisResults ⟨[], [], [⟨"run"⟩], []⟩ "NOW" goalStore []).store.goals =
      [⟨3, "Morning Run", "daily", 5, some "NOW", some 5⟩]
    ∧ (applyAnalysisResults ⟨[], [], [⟨"swim"⟩], []⟩ "NOW" goalStore []).store =
        goalStore := by
  constructor
  · have h := C5_goal_completion.1 "NOW" ⟨"run"⟩ goalStore [] []
      ⟨3, "Morning Run", "daily", 4, none, some 5⟩ rfl (by simp) (by decide)
      (by simp) (by simp)
    simpa using h
  · exact C5_goal_completion.2 "NOW" ⟨"swim"⟩ goalStore (by decide)

theorem goalFrameOk_refl (now : String) (g : GoalRec) : goalFrameOk now g g :=
  ⟨rfl, rfl, rfl, rfl, Nat.le_refl _, Or.inl rfl⟩

theorem goalFrameOk_trans (now : String) {g1 g2 g3 : GoalRec}
    (h12 : goalFrameOk now g1 g2) (h23 : goalFrameOk now g2 g3) :
    goalFrameOk now g1 g3 := by
  obtain ⟨a1, a2, a3, a4, a5, a6⟩ := h12
  obtain ⟨b1, b2, b3, b4, b5, b6⟩ := h23
  refine ⟨b1.trans a1, b2.trans a2, b3.trans a3, b4.trans a4,
    Nat.le_trans a5 b5, ?_⟩
  rcases b6 with hb | hb
  · rw [hb]; exact a6
  · exact Or.inr hb

theorem forall₂_goalFrame_trans (now : String) :
    ∀ {l1 l2 l3 : List GoalRec},
      List.Forall₂ (goalFrameOk now) l1 l2 →
      List.Forall₂ (goalFrameOk now) l2 l3 →
      List.Forall₂ (goalFrameOk now) l1 l3 := by
  intro l1 l2 l3 h12
  induction h12 generalizing l3 with
  | nil =>
    intro h23
    cases h23
    exact List.Forall₂.nil
  | cons hab hrest ih =>
    intro h23
    cases h23 with
    | cons hbc hrest' =>
      exact List.Forall₂.cons (goalFrameOk_trans now hab hbc) (ih hrest')

theorem extendsOnly_refl (now : String) (s : Store) : ExtendsOnly now s s :=
  ⟨rfl, rfl, ⟨[], by simp⟩, ⟨[], by simp⟩, ⟨[], by simp⟩, ⟨[], by simp⟩,
   List.forall₂_same.mpr (fun g _ => goalFrameOk_refl now g)⟩

theorem extendsOnly_trans (now : String) {s1 s2 s3 : Store}
    (h12 : ExtendsOnly now s1 s2) (h23 : ExtendsOnly now s2 s3) :
    ExtendsOnly now s1 s3 := by
  obtain ⟨a1, a2, ⟨n1, a3⟩, ⟨n2, a4⟩, ⟨n3, a5⟩, ⟨n4, a6⟩, a7⟩ := h12
  obtain ⟨b1, b2, ⟨m1, b3⟩, ⟨m2, b4⟩, ⟨m3, b5⟩, ⟨m4, b6⟩, b7⟩ := h23
  refine ⟨b1.trans a1, b2.trans a2, ⟨n1 ++ m1, ?_⟩, ⟨n2 ++ m2, ?_⟩,
    ⟨n3 ++ m3, ?_⟩, ⟨n4 ++ m4, ?_⟩, forall₂_goalFrame_trans now a7 b7⟩
  · rw [b3, a3, List.append_assoc]
  · rw [b4, a4, List.append_assoc]
  · rw [b5, a5, List.append_assoc]
  · rw [b6, a6, List.append_assoc]

theorem dbStep_ok_store {α : Type} {f : Store → α × Store} {s : Store}
    {o : List Bool} {a : α} {s' : Store} {o' : List Bool}
    (h : dbStep f s o = DbRes.ok a s' o') : s' = (f s).2 := by
  cases o with
  | nil => cases h; rfl
  | cons b rest =>
    by_cases hb : b
    · simp [dbStep, hb] at h
    · simp [dbStep, hb] at h
      exact h.2.1.symm

theorem dbStep_err_store {α : Type} {f : Store → α × Store} {s : Store}
    {o : List Bool} {s' : Store} {o' : List Bool}
    (h : dbStep f s o = DbRes.err s' o') : s' = s := by
  cases o with
  | nil => cases h
  | cons b rest =>
    by_cases hb : b
    · simp [dbStep, hb] at h
      exact h.1.symm
    · simp [dbStep, hb] at h

theorem extendsOnly_addNote (now : String) (s : Store)
    (title body createdBy : String) (tags : Option String) :
    ExtendsOnly now s (Store.addNote s title body createdBy tags).2 :=
  ⟨rfl, rfl, ⟨_, rfl⟩, ⟨[], by simp [Store.addNote]⟩,
   ⟨[], by simp [Store.addNote]⟩, ⟨[], by simp [Store.addNote]⟩,
   List.forall₂_same.mpr (fun g _ => goalFrameOk_refl now g)⟩

theorem extendsOnly_createList (now : String) (s : Store) (title ty : String) :
    ExtendsOnly now s (Store.createList s title ty).2 :=
  ⟨rfl, rfl, ⟨[], by simp [Store.createList]⟩, ⟨_, rfl⟩,
   ⟨[], by simp [Store.createList]⟩, ⟨[], by simp [Store.createList]⟩,
   List.forall₂_same.mpr (fun g _ => goalFrameOk_refl now g)⟩

theorem extendsOnly_addListItem (now : String) (s : Store) (lid : Nat)
    (content : String) :
    ExtendsOnly now s (Store.addListItem s lid content).2 :=
  ⟨rfl, rfl, ⟨[], by simp [Store.addListItem]⟩,
   ⟨[], by simp [Store.addListItem]⟩, ⟨_, rfl⟩,
   ⟨[], by simp [Store.addListItem]⟩,
   List.forall₂_same.mpr (fun g _ => goalFrameOk_refl now g)⟩

theorem extendsOnly_addMindmapNode (now : String) (s : Store)
    (label category : String) (conf : ℚ) :
    ExtendsOnly now s (Store.addMindmapNode s label category conf).2 :=
  ⟨rfl, rfl, ⟨[], by simp [Store.addMindmapNode]⟩,
   ⟨[], by simp [Store.addMindmapNode]⟩, ⟨[], by simp [Store.addMindmapNode]⟩,
   ⟨_, rfl⟩,
   List.forall₂_same.mpr (fun g _ => goalFrameOk_refl now g)⟩

theorem extendsOnly_updateGoalStreak (now : String) (s : Store) (gid : Nat) :
    ExtendsOnly now s (Store.updateGoalStreak s gid now) := by
  refine ⟨rfl, rfl, ⟨[], by simp [Store.updateGoalStreak]⟩,
    ⟨[], by simp [Store.updateGoalStreak]⟩,
    ⟨[], by simp [Store.updateGoalStreak]⟩,
    ⟨[], by simp [Store.updateGoalStreak]⟩, ?_⟩
  show List.Forall₂ (goalFrameOk now) s.goals (s.goals.map _)
  rw [List.forall₂_map_right_iff]
  refine List.forall₂_same.mpr (fun g _ => ?_)
  by_cases hid : g.id = gid
  · rw [if_pos hid]
    exact ⟨rfl, rfl, rfl, rfl, Nat.le_succ _, Or.inr rfl⟩
  · simp only [if_neg hid]
    exact goalFrameOk_refl now g

theorem extendsOnly_applyNotes (now : String) :
    ∀ (ns : List NoteInput) (s : Store) (o : List Bool),
      ExtendsOnly now s (applyNotes ns s o).store := by
  intro ns
  induction ns with
  | nil => intro s o; exact extendsOnly_refl now s
  | cons n rest ih =>
    intro s o
    by_cases hg : n.title ≠ "" ∧ n.body ≠ ""
    · rcases hdb : dbStep (fun s => Store.addNote s n.title n.body "vi" none)
          s o with ⟨a, s', o'⟩ | ⟨s', o'⟩
      · have h1 : ExtendsOnly now s s' :=
          (dbStep_ok_store hdb) ▸ extendsOnly_addNote now s _ _ _ _
        have heq : applyNotes (n :: rest) s o = applyNotes rest s' o' := by
          simp [applyNotes, hg, hdb]
        rw [heq]
        exact extendsOnly_trans now h1 (ih s' o')
      · have heq : applyNotes (n :: rest) s o = DbRes.err s' o' := by
          simp [applyNotes, hg, hdb]
        rw [heq, dbStep_err_store hdb]
        exact extendsOnly_refl now s
    · have heq : applyNotes (n :: rest) s o = applyNotes rest s o := by
        simp [applyNotes, hg]
      rw [heq]
      exact ih s o

theorem extendsOnly_applyItemsMatched (now : String) (tid : Nat) :
    ∀ (items : List String) (s : Store) (o : List Bool),
      ExtendsOnly now s (applyItemsMatched tid items s o).store := by
  intro items
  induction items with
  | nil => intro s o; exact extendsOnly_refl now s
  | cons item rest ih =>
    intro s o
    rcases hdb : dbStep (fun s => (Store.getListItems s tid, s)) s o with
      ⟨ex, s', o'⟩ | ⟨s', o'⟩
    · have hs' : s' = s := dbStep_ok_store hdb
      by_cases hdup : ex.any (fun e => strLower e.content = strLower item) = true
      · have heq : applyItemsMatched tid (item :: rest) s o =
            applyItemsMatched tid rest s' o' := by
          simp [applyItemsMatched, hdb, hdup]
        rw [heq]
        exact extendsOnly_trans now (hs' ▸ extendsOnly_refl now s) (ih s' o')
      · rcases hdb2 : dbStep (fun s => Store.addListItem s tid item) s' o' with
          ⟨a2, s2, o2⟩ | ⟨s2, o2⟩
        · have h2 : ExtendsOnly now s' s2 :=
            (dbStep_ok_store hdb2) ▸ extendsOnly_addListItem now s' tid item
          have heq : applyItemsMatched tid (item :: rest) s o =
              applyItemsMatched tid rest s2 o2 := by
            simp [applyItemsMatched, hdb, hdup, hdb2]
          rw [heq]
          exact extendsOnly_trans now (hs' ▸ h2 : ExtendsOnly now s s2) (ih s2 o2)
        · have heq : applyItemsMatched tid (item :: rest) s o =
              DbRes.err s2 o2 := by
            simp [applyItemsMatched, hdb, hdup, hdb2]
          rw [heq, dbStep_err_store hdb2, hs']
          exact extendsOnly_refl now s
    · have heq : applyItemsMatched tid (item :: rest) s o = DbRes.err s' o' := by
        simp [applyItemsMatched, hdb]
      rw [heq, dbStep_err_store hdb]
      exact extendsOnly_refl now s

theorem extendsOnly_addAllItems (now : String) (lid : Nat) :
    ∀ (items : List String) (s : Store) (o : List Bool),
      ExtendsOnly now s (addAllItems lid items s o).store := by
  intro items
  induction items with
  | nil => intro s o; exact extendsOnly_refl now s
  | cons item rest ih =>
    intro s o
    rcases hdb : dbStep (fun s => Store.addListItem s lid item) s o with
      ⟨a, s', o'⟩ | ⟨s', o'⟩
    · have h1 : ExtendsOnly now s s' :=
        (dbStep_ok_store hdb) ▸ extendsOnly_addListItem now s lid item
      have heq : addAllItems lid (item :: rest) s o = addAllItems lid rest s' o' := by
        simp [addAllItems, hdb]
      rw [heq]
      exact extendsOnly_trans now h1 (ih s' o')
    · have heq : addAllItems lid (item :: rest) s o = DbRes.err s' o' := by
        simp [addAllItems, hdb]
      rw [heq, dbStep_err_store hdb]
      exact extendsOnly_refl now s

theorem extendsOnly_applyListGroups (now : String) :
    ∀ (gs : List ListGroup) (s : Store) (o : List Bool),
      ExtendsOnly now s (applyListGroups gs s o).store := by
  intro gs
  induction gs with
  | nil => intro s o; exact extendsOnly_refl now s
  | cons g rest ih =>
    intro s o
    rcases hdb : dbStep (fun s => (Store.getAllLists s, s)) s o with
      ⟨allLists, s', o'⟩ | ⟨s', o'⟩
    · have hs' : s' = s := dbStep_ok_store hdb
      cases hfind : allLists.find? (fun l => titlesMatch l.title g.listName) with
      | some t =>
        rcases hrun : applyItemsMatched t.id g.items s' o' with
          ⟨a2, s2, o2⟩ | ⟨s2, o2⟩
        · have h2 : ExtendsOnly now s' s2 := by
            have := extendsOnly_applyItemsMatched now t.id g.items s' o'
            rwa [hrun] at this
          have heq : applyListGroups (g :: rest) s o =
              applyListGroups rest s2 o2 := by
            simp [applyListGroups, hdb, hfind, hrun]
          rw [heq]
          exact extendsOnly_trans now (hs' ▸ h2 : ExtendsOnly now s s2) (ih s2 o2)
        · have h2 : ExtendsOnly now s' s2 := by
            have := extendsOnly_applyItemsMatched now t.id g.items s' o'
            rwa [hrun] at this
          have heq : applyListGroups (g :: rest) s o = DbRes.err s2 o2 := by
            simp [applyListGroups, hdb, hfind, hrun]
          rw [heq]
          exact (hs' ▸ h2 : ExtendsOnly now s s2)
      | none =>
        rcases hdb2 : dbStep
            (fun s => Store.createList s g.listName (listCategoryOf g.listName))
            s' o' with ⟨nid, s2, o2⟩ | ⟨s2, o2⟩
        · have h2 : ExtendsOnly now s' s2 :=
            (dbStep_ok_store hdb2) ▸ extendsOnly_createList now s' _ _
          rcases hrun : addAllItems nid g.items s2 o2 with
            ⟨a3, s3, o3⟩ | ⟨s3, o3⟩
          · have h3 : ExtendsOnly now s2 s3 := by
              have := extendsOnly_addAllItems now nid g.items s2 o2
              rwa [hrun] at this
            have heq : applyListGroups (g :: rest) s o =
                applyListGroups rest s3 o3 := by
              simp [applyListGroups, hdb, hfind, hdb2, hrun]
            rw [heq]
            exact extendsOnly_trans now
              (hs' ▸ extendsOnly_trans now h2 h3 : ExtendsOnly now s s3)
              (ih s3 o3)
          · have h3 : ExtendsOnly now s2 s3 := by
              have := extendsOnly_addAllItems now nid g.items s2 o2
              rwa [hrun] at this
            have heq : applyListGroups (g :: rest) s o = DbRes.err s3 o3 := by
              simp [applyListGroups, hdb, hfind, hdb2, hrun]
            rw [heq]
            exact (hs' ▸ extendsOnly_trans now h2 h3 : ExtendsOnly now s s3)
        · have heq : applyListGroups (g :: rest) s o = DbRes.err s2 o2 := by
            simp [applyListGroups, hdb, hfind, hdb2]
          rw [heq, dbStep_err_store hdb2, hs']
          exact extendsOnly_refl now s
    · have heq : applyListGroups (g :: rest) s o = DbRes.err s' o' := by
        simp [applyListGroups, hdb]
      rw [heq, dbStep_err_store hdb]
      exact extendsOnly_refl now s

theorem extendsOnly_applyGoals (now : String) :
    ∀ (gcs : List GoalCompletion) (s : Store) (o : List Bool),
      ExtendsOnly now s (applyGoals now gcs s o).store := by
  intro gcs
  induction gcs with
  | nil => intro s o; exact extendsOnly_refl now s
  | cons gc rest ih =>
    intro s o
    rcases hdb : dbStep (fun s => (Store.getAllGoals s, s)) s o with
      ⟨allGoals, s', o'⟩ | ⟨s', o'⟩
    · have hs' : s' = s := dbStep_ok_store hdb
      cases hfind : allGoals.find? (fun g => titlesMatch g.title gc.title) with
      | some t =>
        rcases hdb2 : dbStep
            (fun s => ((), Store.updateGoalStreak s t.id now)) s' o' with
          ⟨a2, s2, o2⟩ | ⟨s2, o2⟩
        · have h2 : ExtendsOnly now s' s2 :=
            (dbStep_ok_store hdb2) ▸ extendsOnly_updateGoalStreak now s' t.id
          have heq : applyGoals now (gc :: rest) s o = applyGoals now rest s2 o2 := by
            simp [applyGoals, hdb, hfind, hdb2]
          rw [heq]
          exact extendsOnly_trans now (hs' ▸ h2 : ExtendsOnly now s s2) (ih s2 o2)
        · have heq : applyGoals now (gc :: rest) s o = DbRes.err s2 o2 := by
            simp [applyGoals, hdb, hfind, hdb2]
          rw [heq, dbStep_err_store hdb2, hs']
          exact extendsOnly_refl now s
      | none =>
        have heq : applyGoals now (gc :: rest) s o = applyGoals now rest s' o' := by
          simp [applyGoals, hdb, hfind]
        rw [heq]
        exact extendsOnly_trans now (hs' ▸ extendsOnly_refl now s) (ih s' o')
    · have heq : applyGoals now (gc :: rest) s o = DbRes.err s' o' := by
        simp [applyGoals, hdb]
      rw [heq, dbStep_err_store hdb]
      exact extendsOnly_refl now s

theorem extendsOnly_applyMindmap (now : String) :
    ∀ (ns : List MindmapInput) (s : Store) (o : List Bool),
      ExtendsOnly now s (applyMindmap ns s o).store := by
  intro ns
  induction ns with
  | nil => intro s o; exact extendsOnly_refl now s
  | cons n rest ih =>
    intro s o
    by_cases hg : n.label ≠ "" ∧ n.category ≠ ""
    · rcases hdb : dbStep (fun s => (Store.getAllMindmapNodes s, s)) s o with
        ⟨ex, s', o'⟩ | ⟨s', o'⟩
      · have hs' : s' = s := dbStep_ok_store hdb
        by_cases hdup : ex.any (fun e => strLower e.label = strLower n.label) = true
        · have heq : applyMindmap (n :: rest) s o = applyMindmap rest s' o' := by
            simp [applyMindmap, hg, hdb, hdup]
          rw [heq]
          exact extendsOnly_trans now (hs' ▸ extendsOnly_refl now s) (ih s' o')
        · rcases hdb2 : dbStep
              (fun s => Store.addMindmapNode s n.label n.category
                (confidenceOrDefault n.confidence)) s' o' with
            ⟨a2, s2, o2⟩ | ⟨s2, o2⟩
          · have h2 : ExtendsOnly now s' s2 :=
              (dbStep_ok_store hdb2) ▸ extendsOnly_addMindmapNode now s' _ _ _
            have heq : applyMindmap (n :: rest) s o = applyMindmap rest s2 o2 := by
              simp [applyMindmap, hg, hdb, hdup, hdb2]
            rw [heq]
            exact extendsOnly_trans now (hs' ▸ h2 : ExtendsOnly now s s2) (ih s2 o2)
          · have heq : applyMindmap (n :: rest) s o = DbRes.err s2 o2 := by
              simp [applyMindmap, hg, hdb, hdup, hdb2]
            rw [heq, dbStep_err_store hdb2, hs']
            exact extendsOnly_refl now s
      · have heq : applyMindmap (n :: rest) s o = DbRes.err s' o' := by
          simp [applyMindmap, hg, hdb]
        rw [heq, dbStep_err_store hdb]
        exact extendsOnly_refl now s
    · have heq : applyMindmap (n :: rest) s o = applyMindmap rest s o := by
        simp [applyMindmap, hg]
      rw [heq]
      exact ih s o

theorem getLastD_mem_of_ne_nil {α : Type} :
    ∀ (l : List α) (d : α), l ≠ [] → l.getLastD d ∈ l := by
  intro l
  induction l with
  | nil => intro d h; exact absurd rfl h
  | cons b t ih =>
    intro d _
    rw [List.getLastD_cons]
    cases t with
    | nil => simp [List.getLastD]
    | cons c u => exact List.mem_cons_of_mem _ (ih b (by simp))

theorem mark_mono_run (st : AgentState) (s : Store) (env : RunEnv) :
    st.lastProcessedMessageId ≤
      (processRecentConversations st s env).1.lastProcessedMessageId := by
  by_cases h1 : st.isProcessing
  · simp [processRecentConversations, h1]
  by_cases h2 : env.llmReady
  case neg => simp [processRecentConversations, h1, h2]
  rcases hdb : dbStep (fun s => (Store.getAllMessages s, s)) s env.oracle with
    ⟨msgs, s1, o1⟩ | ⟨s1, o1⟩
  on_goal 2 => simp [processRecentConversations, h1, h2, hdb]
  by_cases h3 : msgs.isEmpty
  · simp [processRecentConversations, h1, h2, hdb, h3]
  by_cases h4 : (msgs.filter
      (fun m => st.lastProcessedMessageId < m.id)).length < 2
  · simp [processRecentConversations, h1, h2, hdb, h3, h4]
  cases hraw : env.analysisRaw with
  | none => simp [processRecentConversations, h1, h2, hdb, h3, h4, hraw]
  | some raw =>
    cases hparse : parseAnalysisResult raw with
    | none => simp [processRecentConversations, h1, h2, hdb, h3, h4, hraw, hparse]
    | some parsed =>
      rcases happ : applyAnalysisResults (decodeAnalysis parsed) env.now s1 o1 with
        ⟨a, s2, o2⟩ | ⟨s2, o2⟩
      on_goal 2 =>
        simp [processRecentConversations, h1, h2, hdb, h3, h4, hraw, hparse, happ]
      have hne : msgs.filter (fun m => st.lastProcessedMessageId < m.id) ≠ [] := by
        intro hnil
        rw [hnil] at h4
        simp at h4
      have hmem := getLastD_mem_of_ne_nil _ default hne
      have hdec := (List.mem_filter.mp hmem).2
      have hlt : st.lastProcessedMessageId <
          ((msgs.filter (fun m => st.lastProcessedMessageId < m.id)).getLastD
            default).id := of_decide_eq_true hdec
      have hb1 : st.isProcessing = false := by simpa using h1
      have hb2 : env.llmReady = true := by simpa using h2
      have hb3 : msgs.isEmpty = false := by simpa using h3
      unfold processRecentConversations
      rw [hb1, hb2, hdb]
      simp only [Bool.not_true, Bool.false_eq_true, if_false, hb3, hraw,
        hparse, happ, if_neg h4]
      exact Nat.le_of_lt hlt

/-- C1: the pipeline's high-water mark never decreases over any sequence of
runs; after a run whose apply step completes it equals the id of the last
turn of the processed new-turn subsequence; and a run whose parse step
yields no result leaves the mark unchanged. -/
theorem C1_high_water_mark :
    (∀ (envs : List RunEnv) (st : AgentState) (s : Store),
        st.lastProcessedMessageId ≤
          (runSeq st s envs).1.lastProcessedMessageId)
    ∧ (∀ (st : AgentState) (s : Store) (env : RunEnv)
        (allMsgs : List Message) (s1 : Store) (o1 : List Bool) (raw : String)
        (parsed : ParsedAnalysis) (a : Unit) (s2 : Store) (o2 : List Bool),
        st.isProcessing = false →
        env.llmReady = true →
        dbStep (fun s => (Store.getAllMessages s, s)) s env.oracle =
          DbRes.ok allMsgs s1 o1 →
        allMsgs.isEmpty = false →
        ¬ (allMsgs.filter
            (fun m => st.lastProcessedMessageId < m.id)).length < 2 →
        env.analysisRaw = some raw →
        parseAnalysisResult raw = some parsed →
        applyAnalysisResults (decodeAnalysis parsed) env.now s1 o1 =
          DbRes.ok a s2 o2 →
        (processRecentConversations st s env).1.lastProcessedMessageId =
          ((allMsgs.filter
              (fun m => st.lastProcessedMessageId < m.id)).getLastD
            default).id)
    ∧ (∀ (st : AgentState) (s : Store) (env : RunEnv) (raw : String),
        env.analysisRaw = some raw →
        parseAnalysisResult raw = none →
        (processRecentConversations st s env).1.lastProcessedMessageId =
          st.lastProcessedMessageId) := by
  refine ⟨?_, ?_, ?_⟩
  · intro envs
    induction envs with
    | nil => intro st s; exact Nat.le_refl _
    | cons env rest ih =>
      intro st s
      exact Nat.le_trans (mark_mono_run st s env)
        (ih (processRecentConversations st s env).1
            (processRecentConversations st s env).2)
  · intro st s env allMsgs s1 o1 raw parsed a s2 o2 hbusy hready hmsgs hne hlen
      hraw hparse happly
    unfold processRecentConversations
    rw [hbusy, hready, hmsgs]
    simp only [Bool.not_true, Bool.false_eq_true, if_false, hne, hraw, hparse,
      happly, if_neg hlen]
  · intro st s env raw hraw hparse
    by_cases h1 : st.isProcessing
    · simp [processRecentConversations, h1]
    by_cases h2 : env.llmReady
    case neg => simp [processRecentConversations, h1, h2]
    rcases hdb : dbStep (fun s => (Store.getAllMessages s, s)) s env.oracle with
      ⟨msgs, s1, o1⟩ | ⟨s1, o1⟩
    on_goal 2 => simp [processRecentConversations, h1, h2, hdb]
    by_cases h3 : msgs.isEmpty
    · simp [processRecentConversations, h1, h2, hdb, h3]
    by_cases h4 : (msgs.filter
        (fun m => st.lastProcessedMessageId < m.id)).length < 2
    · simp [processRecentConversations, h1, h2, hdb, h3, h4]
    · simp [processRecentConversations, h1, h2, hdb, h3, h4, hraw, hparse]

/-- C1 witness: the apply-completes clause at a store with messages 1 and 2
and an analysis of `"{}"` (the mark advances to 2), and the parse-failure
clause at the same store with a non-JSON analysis (the mark stays 0). -/
theorem C1_witness :
    (processRecentConversations ⟨false, 0⟩ twoMsgStore
        ⟨true, some "\x7b\x7d", "T", []⟩).1.lastProcessedMessageId = 2
    ∧ (processRecentConversations ⟨false, 0⟩ twoMsgStore
        ⟨true, some "bad", "T", []⟩).1.lastProcessedMessageId = 0 := by
  constructor
  · have h := C1_high_water_mark.2.1 ⟨false, 0⟩ twoMsgStore
      ⟨true, some "\x7b\x7d", "T", []⟩ twoMsgStore.messages twoMsgStore [] "\x7b\x7d"
      ⟨[], [], [], []⟩ () twoMsgStore []
      rfl rfl rfl (by decide) (by decide) rfl rfl rfl
    rw [h]
    decide
  · exact C1_high_water_mark.2.2 ⟨false, 0⟩ twoMsgStore
      ⟨true, some "bad", "T", []⟩ "bad" rfl rfl

theorem applyItemsMatched_spec (tid : Nat) :
    ∀ (items : List String) (s : Store),
      ∃ s', applyItemsMatched tid items s [] = DbRes.ok () s' [] ∧
        (s'.getListItems tid).map (fun it => it.content) =
          dedupAppend ((s.getListItems tid).map (fun it => it.content)) items ∧
        s'.lists = s.lists ∧
        (∀ lid, lid ≠ tid → s'.getListItems lid = s.getListItems lid) := by
  intro items
  induction items with
  | nil =>
    intro s
    exact ⟨s, rfl, by simp [dedupAppend], rfl, fun _ _ => rfl⟩
  | cons item rest ih =>
    intro s
    by_cases hb : (s.getListItems tid).any
        (fun ex => strLower ex.content = strLower item) = true
    · obtain ⟨s', hrun, hc, hl, ho⟩ := ih s
      refine ⟨s', ?_, ?_, hl, ho⟩
      · simp [applyItemsMatched, dbStep, hb, hrun]
      · have hmap : ((s.getListItems tid).map (fun it => it.content)).any
            (fun e => strLower e = strLower item) = true := by
          simpa [List.any_map, Function.comp] using hb
        rw [hc]
        simp [dedupAppend, hmap]
    · have hb' : (s.getListItems tid).any
          (fun ex => strLower ex.content = strLower item) = false := by
        simpa using hb
      obtain ⟨s', hrun, hc, hl, ho⟩ :=
        ih { s with
              listItems := s.listItems ++ [⟨s.nextItemId, tid, item, false⟩]
              nextItemId := s.nextItemId + 1 }
      refine ⟨s', ?_, ?_, by simpa using hl, ?_⟩
      · simp [applyItemsMatched, dbStep, hb', Store.addListItem, hrun]
      · have hmap : ((s.getListItems tid).map (fun it => it.content)).any
            (fun e => strLower e = strLower item) = false := by
          simpa [List.any_map, Function.comp] using hb'
        rw [hc]
        have hgl : Store.getListItems
            { s with
              listItems := s.listItems ++ [⟨s.nextItemId, tid, item, false⟩]
              nextItemId := s.nextItemId + 1 } tid =
            s.getListItems tid ++ [⟨s.nextItemId, tid, item, false⟩] := by
          simp [Store.getListItems, List.filter_append]
        rw [hgl]
        simp [dedupAppend, hmap]
      · intro lid hlid
        have hgl : Store.getListItems
            { s with
              listItems := s.listItems ++ [⟨s.nextItemId, tid, item, false⟩]
              nextItemId := s.nextItemId + 1 } lid =
            s.getListItems lid := by
          simp [Store.getListItems, List.filter_append, Ne.symm hlid]
        rw [ho lid hlid, hgl]

theorem addAllItems_spec (lid : Nat) :
    ∀ (items : List String) (s : Store),
      ∃ s', addAllItems lid items s [] = DbRes.ok () s' [] ∧
        s'.lists = s.lists ∧
        s'.listItems.map (fun it => (it.list_id, it.content)) =
          s.listItems.map (fun it => (it.list_id, it.content)) ++
            items.map (fun it => (lid, it)) := by
  intro items
  induction items with
  | nil => intro s; exact ⟨s, rfl, rfl, by simp⟩
  | cons item rest ih =>
    intro s
    obtain ⟨s', hrun, hl, hi⟩ :=
      ih { s with
            listItems := s.listItems ++ [⟨s.nextItemId, lid, item, false⟩]
            nextItemId := s.nextItemId + 1 }
    refine ⟨s', ?_, by simpa using hl, ?_⟩
    · simp [addAllItems, dbStep, Store.addListItem, hrun]
    · rw [hi]
      simp

/-- C3: applying a list-items group matches an existing container by
bidirectional case-insensitive substring on titles with the first match in
store order winning; in a matched container each item is inserted exactly
when no existing entry (including entries added by earlier items of the
same batch) equals it case-insensitively — so `["Milk", "milk"]` against a
matched container with no entries inserts `"Milk"` once and skips
`"milk"` — and containers are never created on a match; when no container
matches, a new container is created with title `listName` and category
`listName` lower-cased with whitespace runs replaced by single underscores,
and every item of the group is inserted into it unconditionally. -/
theorem C3_list_items :
    (∀ (g : ListGroup) (s : Store) (l₁ l₂ : List ListRec) (t : ListRec),
        s.lists = l₁ ++ t :: l₂ →
        (∀ l ∈ l₁, titlesMatch l.title g.listName = false) →
        titlesMatch t.title g.listName = true →
        (((applyListGroups [g] s []).store.getListItems t.id).map
            (fun it => it.content) =
          dedupAppend ((s.getListItems t.id).map (fun it => it.content))
            g.items)
        ∧ (applyListGroups [g] s []).store.lists = s.lists
        ∧ (∀ lid, lid ≠ t.id →
            (applyListGroups [g] s []).store.getListItems lid =
              s.getListItems lid))
    ∧ (∀ (g : ListGroup) (s : Store),
        (∀ l ∈ s.lists, titlesMatch l.title g.listName = false) →
        (applyListGroups [g] s []).store.lists =
          s.lists ++ [⟨s.nextListId, g.listName, listCategoryOf g.listName⟩]
        ∧ (applyListGroups [g] s []).store.listItems.map
            (fun it => (it.list_id, it.content)) =
          s.listItems.map (fun it => (it.list_id, it.content)) ++
            g.items.map (fun it => (s.nextListId, it)))
    ∧ ((applyListGroups [⟨"groceries", ["Milk", "milk"]⟩] groceriesStore
          []).store.getListItems 5).map (fun it => it.content) = ["Milk"] := by
  refine ⟨?_, ?_, rfl⟩
  · intro g s l₁ l₂ t hlists h1 hx
    obtain ⟨s', hrun, hc, hl, ho⟩ := applyItemsMatched_spec t.id g.items s
    have hred : applyListGroups [g] s [] = DbRes.ok () s' [] := by
      simp only [applyListGroups, dbStep, Store.getAllLists]
      rw [hlists, find?_append_first _ l₁ l₂ t h1 hx]
      simp [hrun, ← hlists]
    rw [hred]
    exact ⟨hc, hl, ho⟩
  · intro g s hnone
    obtain ⟨s', hrun, hl, hi⟩ := addAllItems_spec s.nextListId g.items
      { s with
        lists := s.lists ++ [⟨s.nextListId, g.listName, listCategoryOf g.listName⟩]
        nextListId := s.nextListId + 1 }
    have hfind : s.lists.find?
        (fun l => titlesMatch l.title g.listName) = none :=
      List.find?_eq_none.mpr (fun l hll => by simp [hnone l hll])
    have hred : applyListGroups [g] s [] = DbRes.ok () s' [] := by
      simp only [applyListGroups, dbStep, Store.getAllLists]
      rw [hfind]
      simp [Store.createList, hrun]
    rw [hred]
    exact ⟨hl, hi⟩

/-- C3 witness: the matched-container clause at a store holding one
container titled `Groceries` with no entries and the group
`{listName: "groceries", items: ["Milk", "milk"]}`, and the no-match clause
at the empty store with `{listName: "My  Movies", items: ["Dune"]}`. -/
theorem C3_witness :
    (((applyListGroups [⟨"groceries", ["Milk", "milk"]⟩] groceriesStore
        []).store.getListItems 5).map (fun it => it.content) =
      dedupAppend ((groceriesStore.getListItems 5).map (fun it => it.content))
        ["Milk", "milk"])
    ∧ (applyListGroups [⟨"My  Movies", ["Dune"]⟩] emptyStore []).store.lists =
        [⟨1, "My  Movies", "my_movies"⟩] := by
  constructor
  · exact (C3_list_items.1 ⟨"groceries", ["Milk", "milk"]⟩ groceriesStore []
      [] ⟨5, "Groceries", "grocery"⟩ rfl (by simp) (by decide)).1
  · have h := (C3_list_items.2.1 ⟨"My  Movies", ["Dune"]⟩ emptyStore
      (by simp [emptyStore])).1
    simpa [emptyStore, listCategoryOf] using h

/-- C4: a mindmap item with label and category present is skipped exactly
when an existing fact matches its label case-insensitively on the full
string, and is otherwise created with confidence defaulting to 0.8 when the
field is absent or falsy; consequently applying the same item (same label,
any category or confidence) in two separate runs leaves exactly one stored
fact with that label. -/
theorem C4_mindmap_dedup :
    (∀ (n : MindmapInput) (now : String) (s : Store),
        n.label ≠ "" → n.category ≠ "" →
        s.mindmapNodes.any
          (fun m => strLower m.label = strLower n.label) = true →
        (applyAnalysisResults ⟨[], [], [], [n]⟩ now s []).store = s)
    ∧ (∀ (n : MindmapInput) (now : String) (s : Store),
        n.label ≠ "" → n.category ≠ "" →
        s.mindmapNodes.any
          (fun m => strLower m.label = strLower n.label) = false →
        (applyAnalysisResults ⟨[], [], [], [n]⟩ now s []).store =
          { s with
            mindmapNodes := s.mindmapNodes ++
              [⟨s.nextNodeId, n.label, n.category,
                confidenceOrDefault n.confidence, none⟩]
            nextNodeId := s.nextNodeId + 1 })
    ∧ (∀ (n n' : MindmapInput) (now1 now2 : String) (s : Store),
        n.label ≠ "" → n.category ≠ "" → n'.label ≠ "" → n'.category ≠ "" →
        strLower n'.label = strLower n.label →
        s.mindmapNodes.any
          (fun m => strLower m.label = strLower n.label) = false →
        ((applyAnalysisResults ⟨[], [], [], [n']⟩ now2
            (applyAnalysisResults ⟨[], [], [], [n]⟩ now1 s []).store
            []).store.mindmapNodes.filter
          (fun m => strLower m.label = strLower n.label)).length = 1)
    ∧ confidenceOrDefault none = (0.8 : ℚ)
    ∧ confidenceOrDefault (some 0) = (0.8 : ℚ)
    ∧ (∀ q : ℚ, q ≠ 0 → confidenceOrDefault (some q) = q) := by
  have hskip : ∀ (n : MindmapInput) (now : String) (s : Store),
      n.label ≠ "" → n.category ≠ "" →
      s.mindmapNodes.any
        (fun m => strLower m.label = strLower n.label) = true →
      (applyAnalysisResults ⟨[], [], [], [n]⟩ now s []).store = s := by
    intro n now s h1 h2 hany
    rw [applyAnalysisResults_mindmap_only]
    simp [applyMindmap, dbStep, Store.getAllMindmapNodes, h1, h2, hany,
      DbRes.store]
  have hcreate : ∀ (n : MindmapInput) (now : String) (s : Store),
      n.label ≠ "" → n.category ≠ "" →
      s.mindmapNodes.any
        (fun m => strLower m.label = strLower n.label) = false →
      (applyAnalysisResults ⟨[], [], [], [n]⟩ now s []).store =
        { s with
          mindmapNodes := s.mindmapNodes ++
            [⟨s.nextNodeId, n.label, n.category,
              confidenceOrDefault n.confidence, none⟩]
          nextNodeId := s.nextNodeId + 1 } := by
    intro n now s h1 h2 hany
    rw [applyAnalysisResults_mindmap_only]
    simp [applyMindmap, dbStep, Store.getAllMindmapNodes, h1, h2, hany,
      DbRes.store, Store.addMindmapNode]
  refine ⟨hskip, hcreate, ?_, rfl, rfl, fun q hq => by simp [confidenceOrDefault, hq]⟩
  intro n n' now1 now2 s h1 h2 h1' h2' hlab hnone
  rw [hcreate n now1 s h1 h2 hnone]
  rw [hskip n' now2 _ h1' h2' (by simp [hlab])]
  have hnil : s.mindmapNodes.filter
      (fun m => decide (strLower m.label = strLower n.label)) = [] := by
    rw [List.filter_eq_nil_iff]
    intro m hm
    have := List.any_eq_false.mp hnone m hm
    simpa using this
  simp [List.filter_append, hnil]

/-- C4 witness: the two-run clause applied at the empty store with the
claim's item `{label: "Loves hiking", category: "values", confidence: 0.9}`
re-offered in the second run with a different category and no confidence,
plus the creation clause showing the 0.8 default for an absent confidence
field. -/
theorem C4_witness :
    ((applyAnalysisResults ⟨[], [], [], [⟨"LOVES HIKING", "facts", none⟩]⟩ "t2"
        (applyAnalysisResults
          ⟨[], [], [], [⟨"Loves hiking", "values", some (9 / 10)⟩]⟩ "t1"
          emptyStore []).store []).store.mindmapNodes.filter
      (fun m => strLower m.label = strLower "Loves hiking")).length = 1
    ∧ (applyAnalysisResults ⟨[], [], [], [⟨"Runs daily", "facts", none⟩]⟩ "t"
        emptyStore []).store =
        { emptyStore with
          mindmapNodes := [⟨1, "Runs daily", "facts", (0.8 : ℚ), none⟩]
          nextNodeId := 2 } := by
  constructor
  · exact C4_mindmap_dedup.2.2.1 ⟨"Loves hiking", "values", some (9 / 10)⟩
      ⟨"LOVES HIKING", "facts", none⟩ "t1" "t2" emptyStore
      (by decide) (by decide) (by decide) (by decide) (by decide) (by decide)
  · have h := C4_mindmap_dedup.2.1 ⟨"Runs daily", "facts", none⟩ "t" emptyStore
      (by decide) (by decide) (by decide)
    simpa using h

/-- C2, counterexample: with two well-formed notes to apply and the first
`addNote` call failing, the apply aborts immediately — the second note is
never applied (the loop does not continue), in contrast with the same apply
under no failures, where both notes land. -/
theorem C2_counterexample :
    applyAnalysisResults twoNotesAnalysis "now" emptyStore [true] =
      DbRes.err emptyStore []
    ∧ (applyAnalysisResults twoNotesAnalysis "now" emptyStore [true]).store.notes = []
    ∧ (applyAnalysisResults twoNotesAnalysis "now" emptyStore []).store.notes.map
        NoteRec.title = ["t1", "t2"] :=
  ⟨rfl, rfl, rfl⟩

/-- C2 (amended): `applyAnalysisResults` has no per-item exception handling;
a Record Store failure aborts the remaining apply work (the rest of that
loop and all later loops are not run), and the exception propagates to
`processRecentConversations`' top-level catch, where it is logged and
swallowed: the run returns normally with the busy flag released, the
high-water mark unchanged and the store left exactly as it was at the
failure. -/
theorem C2_store_failure_aborts :
    (∀ (n1 n2 : NoteInput) (rest : List NoteInput) (s : Store) (o : List Bool),
        n1.title ≠ "" → n1.body ≠ "" →
        applyNotes (n1 :: n2 :: rest) s (true :: o) = DbRes.err s o)
    ∧ (∀ (st : AgentState) (s : Store) (env : RunEnv)
        (allMsgs : List Message) (s1 : Store) (o1 : List Bool) (raw : String)
        (parsed : ParsedAnalysis) (s2 : Store) (o2 : List Bool),
        st.isProcessing = false →
        env.llmReady = true →
        dbStep (fun s => (Store.getAllMessages s, s)) s env.oracle =
          DbRes.ok allMsgs s1 o1 →
        allMsgs.isEmpty = false →
        ¬ (allMsgs.filter
            (fun m => st.lastProcessedMessageId < m.id)).length < 2 →
        env.analysisRaw = some raw →
        parseAnalysisResult raw = some parsed →
        applyAnalysisResults (decodeAnalysis parsed) env.now s1 o1 =
          DbRes.err s2 o2 →
        processRecentConversations st s env =
          ({ isProcessing := false
             lastProcessedMessageId := st.lastProcessedMessageId }, s2)) := by
  constructor
  · intro n1 n2 rest s o ht hb
    simp [applyNotes, ht, hb, dbStep]
  · intro st s env allMsgs s1 o1 raw parsed s2 o2 hbusy hready hmsgs hne hlen hraw hparse happly
    unfold processRecentConversations
    rw [hbusy, hready, hmsgs]
    simp only [Bool.not_true, Bool.false_eq_true, if_false, hne, hraw, hparse,
      happly, if_neg hlen]

/-- C2 witness: the abort clause at a concrete two-note batch, and the
catch-and-swallow clause at a concrete run whose goal-table read fails. -/
theorem C2_witness :
    applyNotes [⟨"t1", "b1"⟩, ⟨"t2", "b2"⟩] emptyStore [true] =
      DbRes.err emptyStore []
    ∧ processRecentConversations ⟨false, 0⟩ twoMsgStore
        ⟨true, some "\x7b\"completedGoals\":[\x7b\"title\":\"g\"\x7d]\x7d", "T", [false, true]⟩ =
        ({ isProcessing := false, lastProcessedMessageId := 0 }, twoMsgStore) := by
  constructor
  · exact C2_store_failure_aborts.1 ⟨"t1", "b1"⟩ ⟨"t2", "b2"⟩ [] emptyStore []
      (by decide) (by decide)
  · exact C2_store_failure_aborts.2 ⟨false, 0⟩ twoMsgStore
      ⟨true, some "\x7b\"completedGoals\":[\x7b\"title\":\"g\"\x7d]\x7d", "T", [false, true]⟩
      twoMsgStore.messages twoMsgStore [true] "\x7b\"completedGoals\":[\x7b\"title\":\"g\"\x7d]\x7d"
      ⟨[], [], [Json.obj [("title", Json.str "g")]], []⟩ twoMsgStore []
      rfl rfl rfl (by decide) (by decide) rfl rfl rfl

/-- C10: applying an analysis result only ever appends new rows to the
note, list-container, list-entry and mindmap tables, never deletes or
rewrites an existing row there, leaves the message log and user profiles
untouched, and touches goals only row-for-row: a goal keeps its id, title,
cadence and target, its streak counter never decreases, and its
last-completed date is either untouched or stamped with the run's
wall-clock reading; no goal row is created or deleted.  This holds for
every analysis input and every failure oracle, including runs aborted by a
store failure. -/
theorem C10_apply_frame (a : AnalysisResult) (now : String) (s : Store)
    (o : List Bool) :
    ExtendsOnly now s (applyAnalysisResults a now s o).store ∧
    (applyAnalysisResults a now s o).store.goals.length = s.goals.length := by
  have hmain : ExtendsOnly now s (applyAnalysisResults a now s o).store := by
    rcases h1 : applyNotes a.notes s o with ⟨u1, s1, o1⟩ | ⟨s1, o1⟩
    on_goal 2 =>
      have hred : applyAnalysisResults a now s o = DbRes.err s1 o1 := by
        simp [applyAnalysisResults, h1]
      rw [hred]
      have h := extendsOnly_applyNotes now a.notes s o
      rwa [h1] at h
    have e1 : ExtendsOnly now s s1 := by
      have h := extendsOnly_applyNotes now a.notes s o
      rwa [h1] at h
    rcases h2 : applyListGroups a.listItems s1 o1 with ⟨u2, s2, o2⟩ | ⟨s2, o2⟩
    on_goal 2 =>
      have hred : applyAnalysisResults a now s o = DbRes.err s2 o2 := by
        simp [applyAnalysisResults, h1, h2]
      rw [hred]
      have h := extendsOnly_applyListGroups now a.listItems s1 o1
      rw [h2] at h
      exact extendsOnly_trans now e1 h
    have e2 : ExtendsOnly now s s2 := by
      have h := extendsOnly_applyListGroups now a.listItems s1 o1
      rw [h2] at h
      exact extendsOnly_trans now e1 h
    rcases h3 : applyGoals now a.completedGoals s2 o2 with ⟨u3, s3, o3⟩ | ⟨s3, o3⟩
    on_goal 2 =>
      have hred : applyAnalysisResults a now s o = DbRes.err s3 o3 := by
        simp [applyAnalysisResults, h1, h2, h3]
      rw [hred]
      have h := extendsOnly_applyGoals now a.completedGoals s2 o2
      rw [h3] at h
      exact extendsOnly_trans now e2 h
    have e3 : ExtendsOnly now s s3 := by
      have h := extendsOnly_applyGoals now a.completedGoals s2 o2
      rw [h3] at h
      exact extendsOnly_trans now e2 h
    have hred : applyAnalysisResults a now s o = applyMindmap a.mindmapNodes s3 o3 := by
      simp [applyAnalysisResults, h1, h2, h3]
    rw [hred]
    exact extendsOnly_trans now e3 (extendsOnly_applyMindmap now a.mindmapNodes s3 o3)
  exact ⟨hmain, (List.Forall₂.length_eq hmain.2.2.2.2.2.2).symm⟩

/-- C6, counterexample: the input `"null"` is valid JSON and parses
successfully, yet `parseAnalysisResult` returns no result instead of the
four coerced empty arrays the claim predicts for a successful parse — the
property access `parsed.notes` on `null` throws inside the `try`. -/
theorem C6_counterexample :
    jsonParseChars (cleanAnalysisJson "null") = some Json.null ∧
    parseAnalysisResult "null" = none :=
  ⟨rfl, rfl⟩

/-- C6 (amended): `parseAnalysisResult` returns `none` whenever the
preprocessed input is not valid JSON (in particular on `"not json"`), and on
a successful parse of any JSON value other than `null` it coerces each of
the four keys to an empty array when missing or not array-shaped and passes
array values through unchanged (so `'{"notes":"x"}'` yields four empty
arrays); an input parsing to JSON `null` yields `none` because the key
access on `null` raises a `TypeError` handled by the same catch; the
function never throws (it is total). -/
theorem C6_parse_robustness :
    (∀ raw : String, jsonParseChars (cleanAnalysisJson raw) = none →
        parseAnalysisResult raw = none)
    ∧ parseAnalysisResult "not json" = none
    ∧ parseAnalysisResult "\x7b\"notes\":\"x\"\x7d" =
        some { notes := [], listItems := [], completedGoals := [],
               mindmapNodes := [] }
    ∧ (∀ (raw : String) (j : Json),
        jsonParseChars (cleanAnalysisJson raw) = some j → j ≠ Json.null →
        parseAnalysisResult raw = some
          { notes := asArr (jget j "notes")
            listItems := asArr (jget j "listItems")
            completedGoals := asArr (jget j "completedGoals")
            mindmapNodes := asArr (jget j "mindmapNodes") }) := by
  refine ⟨?_, rfl, rfl, ?_⟩
  · intro raw h
    unfold parseAnalysisResult
    rw [h]
  · intro raw j hj hne
    unfold parseAnalysisResult
    rw [hj]
    cases j with
    | null => exact absurd rfl hne
    | bool b => rfl
    | num q => rfl
    | str s => rfl
    | arr l => rfl
    | obj fs => rfl

/-- C6 witness: the general coercion clause applied at the concrete input
`"{\"notes\":[]}"`. -/
theorem C6_witness :
    parseAnalysisResult "\x7b\"notes\":[]\x7d" =
      some { notes := asArr (jget (Json.obj [("notes", Json.arr [])]) "notes")
             listItems := asArr (jget (Json.obj [("notes", Json.arr [])]) "listItems")
             completedGoals := asArr (jget (Json.obj [("notes", Json.arr [])]) "completedGoals")
             mindmapNodes := asArr (jget (Json.obj [("notes", Json.arr [])]) "mindmapNodes") } :=
  C6_parse_robustness.2.2.2 "\x7b\"notes\":[]\x7d" (Json.obj [("notes", Json.arr [])])
    rfl (fun h => Json.noConfusion h)

/-- C7, counterexample: on the sanitized text `"Hello [x] there"` the
bracketed token is not a trailing group anchored to the end of the final
line, yet a suggestion is still produced (and the removal step, which is
anchored, leaves the text unchanged) — refuting the claim that the
suggestion list is empty unless the tokens form a trailing group. -/
theorem C7_counterexample :
    extractSuggestions "Hello [x] there" = ["x"] ∧
    removeSuggestions "Hello [x] there" = "Hello [x] there" ∧
    sanitizeCompletion "Hello [x] there" = ("Hello [x] there", ["x"]) :=
  ⟨rfl, rfl, rfl⟩

/-- C7 (amended): suggestion extraction captures every bracket-enclosed
`[text]` token appearing anywhere on the final line of the sanitized text
(the segment after the last newline), in order and with duplicates kept,
returning the empty list when the text has no bracketed token at all or the
final line has none; only the removal step is anchored — it deletes a
contiguous trailing group of bracketed tokens (with preceding whitespace)
from the end of the text, leaving mid-line tokens in the clean text. -/
theorem C7_suggestion_extraction :
    (∀ text : String,
        extractSuggestions text =
          if (bracketTokens text.data).isEmpty then []
          else (bracketTokens (lastLineChars text.data)).map String.mk)
    ∧ extractSuggestions "a [x] b [x] [y]" = ["x", "x", "y"]
    ∧ extractSuggestions "see [a] above\nplain line" = []
    ∧ extractSuggestions "Hi [a] [b]" = ["a", "b"]
    ∧ removeSuggestions "Hi [a] [b]" = "Hi"
    ∧ sanitizeCompletion "Hi [a] [b]" = ("Hi", ["a", "b"]) :=
  ⟨fun _ => rfl, rfl, rfl, rfl, rfl, rfl⟩

/-- C8: the sanitizer removes every well-formed `<think>` block
(non-greedily, case-insensitively, across occurrences), deletes an
unterminated `<think>` marker to end-of-text, strips the ChatML
turn-delimiter tokens, collapses runs of three or more newlines to two and
trims; on the claim's input the pipeline yields clean text `"Hello there"`
with suggestions `["Tell me more", "Ask something"]`.  All the embedded
functions are total, so no input can make the sanitizer throw. -/
theorem C8_sanitizer :
    sanitizeCompletion "<think>reasoning here</think>Hello there [Tell me more] [Ask something]" =
      ("Hello there", ["Tell me more", "Ask something"])
    ∧ cleanResponse "<think>reasoning here</think>Hello there [Tell me more] [Ask something]" =
        "Hello there [Tell me more] [Ask something]"
    ∧ cleanResponse "A<THINK>x</THINK>B<think>y</think>C" = "ABC"
    ∧ cleanResponse "x<think>a</think>b</think>c" = "xb</think>c"
    ∧ cleanResponse "AB<think>partial" = "AB"
    ∧ cleanResponse "Hi<|im_end|>\n<|im_start|>there" = "Hi\nthere"
    ∧ cleanResponse "A\n\n\n\nB" = "A\n\nB"
    ∧ cleanResponse "" = "" :=
  ⟨rfl, rfl, rfl, rfl, rfl, rfl, rfl, rfl⟩

theorem foldl_append_concatBlocks (l : List Message) (init : String) :
    l.foldl (fun acc msg => acc ++ chatBlock msg) init = init ++ concatBlocks l := by
  induction l generalizing init with
  | nil => simp [concatBlocks]
  | cons m t ih =>
    simp only [List.foldl_cons, concatBlocks, List.map_cons, List.foldr_cons]
    rw [ih, String.append_assoc]
    rfl

/-- C9: for every conversation history the rendered chat prompt is the
system block, then exactly the blocks of the most recent (at most) six
history turns in their original order — older turns silently dropped — then
the new user utterance's block, then a final open assistant tag with no
closing marker. -/
theorem C9_prompt_truncation (sys msg : String) (hist : List Message) :
    buildChatMLPrompt sys msg hist =
      "<|im_start|>system\n" ++ sys ++ "<|im_end|>\n" ++
        concatBlocks (recentSix hist) ++
        ("<|im_start|>user\n" ++ msg ++ "<|im_end|>\n") ++
        "<|im_start|>assistant\n"
    ∧ (recentSix hist).length = min 6 hist.length
    ∧ recentSix hist <:+ hist := by
  refine ⟨?_, ?_, List.drop_suffix _ _⟩
  · show List.foldl (fun acc msg => acc ++ chatBlock msg)
        ("<|im_start|>system\n" ++ sys ++ "<|im_end|>\n") (recentSix hist) ++
        ("<|im_start|>user\n" ++ msg ++ "<|im_end|>\n") ++ "<|im_start|>assistant\n" = _
    rw [foldl_append_concatBlocks]
  · simp only [recentSix, List.length_drop]
    omega

end ViApp
